import Mathlib

/-!
Verification of the Minesweeper board engine (`board.py`).

The board state and every engine operation are embedded shallowly:

* `CellState` mirrors `settings.CellState` (HIDDEN / REVEALED / FLAGGED).
* `Board` mirrors the fields of the Python `Board` class that carry game
  state (the purely graphical fields `cell_size`, `board_pixel_width`,
  `board_pixel_height` are rendering data and are not part of the engine
  state).  The two row-indexed Python lists `grid` and `cell_states` are
  embedded as total functions `Nat → Nat → _`; the engine only ever reads
  and writes in-range indices.
* The nested `for r ... for c ...` loops of `_reveal_all_mines`,
  `_check_win` and `_calculate_adjacent_mines` are embedded as left folds
  over `cellsList rows cols`, which enumerates `(r, c)` in exactly the
  Python iteration order.
* `random.randint` sampling in `_place_mines` is nondeterministic; the
  loop's outcome is parametrised by the resulting set of coordinates `ms`,
  and `ValidPlacement` states exactly which sets the rejection-sampling
  loop can produce (the requested number of distinct in-range coordinates
  outside the safe zone).
* The recursion of `reveal` is embedded with an explicit fuel parameter
  (`revealFuel`); `reveal` runs it with fuel `rows * cols`, and the
  development proves that any fuel of at least the number of
  not-yet-revealed cells produces the same result, which is the
  termination bound of the Python recursion.
* `handle_click` is embedded from the grid-coordinate bounds check
  onwards (`row`/`col` are the grid coordinates the Python code obtains
  from the pixel position; the pixel-to-grid division is window-layout
  plumbing outside the engine).
-/

inductive CellState where
  | HIDDEN : CellState
  | REVEALED : CellState
  | FLAGGED : CellState
deriving DecidableEq, Repr

/-- `settings.MINE_VALUE`. -/
def MINE_VALUE : Int := -1

/-- `settings.GRID_ROWS`. -/
def GRID_ROWS : Nat := 16

/-- `settings.GRID_COLS`. -/
def GRID_COLS : Nat := 16

/-- `settings.NUM_MINES`. -/
def NUM_MINES : Nat := 40

/-- Point update of a grid-valued function (a Python `grid[r][c] = v`). -/
def setG (g : Nat → Nat → Int) (r c : Nat) (v : Int) : Nat → Nat → Int :=
  fun r' c' => if r' = r ∧ c' = c then v else g r' c'

/-- Point update of a state-valued function (`cell_states[r][c] = v`). -/
def setS (s : Nat → Nat → CellState) (r c : Nat) (v : CellState) :
    Nat → Nat → CellState :=
  fun r' c' => if r' = r ∧ c' = c then v else s r' c'

/-- The cells visited by `for r in range(rows): for c in range(cols):`,
in iteration order. -/
def cellsList (rows cols : Nat) : List (Nat × Nat) :=
  (List.range rows) ×ˢ (List.range cols)

/-- The eight neighbour offsets produced by
`for i in range(-1, 2): for j in range(-1, 2):` with `(0, 0)` skipped,
in iteration order. -/
def neighborOffsets : List (Int × Int) :=
  [(-1, -1), (-1, 0), (-1, 1), (0, -1), (0, 1), (1, -1), (1, 0), (1, 1)]

/-- The nine offsets of the safe-zone loop in `_place_mines`
(`(0, 0)` included), in iteration order. -/
def zoneOffsets : List (Int × Int) :=
  [(-1, -1), (-1, 0), (-1, 1), (0, -1), (0, 0), (0, 1), (1, -1), (1, 0), (1, 1)]

/-- The game-state fields of the Python `Board` object. -/
structure Board where
  rows : Nat
  cols : Nat
  mines : Nat
  grid : Nat → Nat → Int
  cell_states : Nat → Nat → CellState
  flags_placed : Int
  mines_location : Finset (Nat × Nat)
  first_click : Bool
  game_over : Bool
  game_won : Bool

/-- `Board.__init__(rows, cols, mines)`. -/
def Board.init (rows cols mines : Nat) : Board where
  rows := rows
  cols := cols
  mines := mines
  grid := fun _ _ => 0
  cell_states := fun _ _ => CellState.HIDDEN
  flags_placed := 0
  mines_location := ∅
  first_click := true
  game_over := false
  game_won := false

/-- The `safe_zone` set built by the nested offset loop in
`_place_mines`: every in-bounds cell of the 3×3 block centred on the
first click. -/
def safeZone (b : Board) (fr fc : Nat) : Finset (Nat × Nat) :=
  (zoneOffsets.filterMap (fun od =>
    let nr : Int := (fr : Int) + od.1
    let nc : Int := (fc : Int) + od.2
    if 0 ≤ nr ∧ nr < (b.rows : Int) ∧ 0 ≤ nc ∧ nc < (b.cols : Int) then
      some (nr.toNat, nc.toNat)
    else none)).toFinset

/-- `mines_to_place = min(self.mines, rows*cols - len(safe_zone))`. -/
def minesToPlace (b : Board) (fr fc : Nat) : Nat :=
  min b.mines (b.rows * b.cols - (safeZone b fr fc).card)

/-- `Board._place_mines`, parametrised by the set `ms` of coordinates the
rejection-sampling loop ends up choosing.  The loop clears
`mines_location`, adds each chosen coordinate, writes `MINE_VALUE` into
the grid at each chosen coordinate (the writes are at pairwise distinct
cells, so the sequential loop equals this pointwise description), and
finally stores the possibly clamped mine count. -/
def place_mines (b : Board) (fr fc : Nat) (ms : Finset (Nat × Nat)) : Board :=
  { b with
    mines_location := ms
    grid := fun r c => if (r, c) ∈ ms then MINE_VALUE else b.grid r c
    mines := minesToPlace b fr fc }

/-- Exactly the sets of coordinates the sampling loop of `_place_mines`
can produce: `mines_to_place` distinct in-range coordinates, none inside
the safe zone. -/
def ValidPlacement (b : Board) (fr fc : Nat) (ms : Finset (Nat × Nat)) : Prop :=
  ms.card = minesToPlace b fr fc ∧
    ∀ p ∈ ms, p.1 < b.rows ∧ p.2 < b.cols ∧ p ∉ safeZone b fr fc

/-- The neighbour-counting inner loop of `_calculate_adjacent_mines`:
number of offsets whose target is in bounds and holds `MINE_VALUE`. -/
def adjMineCount (g : Nat → Nat → Int) (rows cols r c : Nat) : Nat :=
  neighborOffsets.countP (fun od =>
    let nr : Int := (r : Int) + od.1
    let nc : Int := (c : Int) + od.2
    decide (0 ≤ nr ∧ nr < (rows : Int) ∧ 0 ≤ nc ∧ nc < (cols : Int) ∧
      g nr.toNat nc.toNat = MINE_VALUE))

/-- `Board._calculate_adjacent_mines`: for every non-mine cell, in
iteration order, store the count of adjacent mines. -/
def calculate_adjacent_mines (b : Board) : Board :=
  (cellsList b.rows b.cols).foldl (fun acc p =>
    if acc.grid p.1 p.2 ≠ MINE_VALUE then
      { acc with
        grid := setG acc.grid p.1 p.2
          (adjMineCount acc.grid acc.rows acc.cols p.1 p.2) }
    else acc) b

/-- `Board._reveal_all_mines`: every mine cell not currently flagged
becomes revealed (the `elif` arm of the Python loop is `pass`). -/
def reveal_all_mines (b : Board) : Board :=
  (cellsList b.rows b.cols).foldl (fun acc p =>
    if acc.grid p.1 p.2 = MINE_VALUE ∧ acc.cell_states p.1 p.2 ≠ CellState.FLAGGED then
      { acc with cell_states := setS acc.cell_states p.1 p.2 CellState.REVEALED }
    else acc) b

/-- `Board.reveal`, with explicit fuel bounding the recursion depth.
Fuel `0` returns the board unchanged; the Python recursion never runs out
of depth (proved below: any fuel `≥` the number of not-yet-revealed cells
gives the same result). -/
def revealFuel : Nat → Board → Nat → Nat → Board
  | 0, b, _, _ => b
  | fuel + 1, b, row, col =>
    if b.game_over = true ∨ b.cell_states row col = CellState.REVEALED then b
    else
      let b1 : Board :=
        { b with cell_states := setS b.cell_states row col CellState.REVEALED }
      if b1.grid row col = MINE_VALUE then
        reveal_all_mines { b1 with game_over := true }
      else if b1.grid row col = 0 then
        neighborOffsets.foldl (fun acc od =>
          let nr : Int := (row : Int) + od.1
          let nc : Int := (col : Int) + od.2
          if 0 ≤ nr ∧ nr < (acc.rows : Int) ∧ 0 ≤ nc ∧ nc < (acc.cols : Int) ∧
              acc.cell_states nr.toNat nc.toNat = CellState.HIDDEN then
            revealFuel fuel acc nr.toNat nc.toNat
          else acc) b1
      else b1

/-- `Board.reveal`: the recursion with the depth budget `rows * cols`
that the flood fill can never exhaust. -/
def reveal (b : Board) (row col : Nat) : Board :=
  revealFuel (b.rows * b.cols) b row col

/-- `Board.toggle_flag`. -/
def toggle_flag (b : Board) (row col : Nat) : Board :=
  if b.cell_states row col = CellState.HIDDEN then
    { b with
      cell_states := setS b.cell_states row col CellState.FLAGGED
      flags_placed := b.flags_placed + 1 }
  else if b.cell_states row col = CellState.FLAGGED then
    { b with
      cell_states := setS b.cell_states row col CellState.HIDDEN
      flags_placed := b.flags_placed - 1 }
  else b

/-- The `revealed_count` loop of `_check_win`: cells that are revealed
and are not mines. -/
def revealedNonMineCount (b : Board) : Nat :=
  (cellsList b.rows b.cols).countP (fun p =>
    decide (b.cell_states p.1 p.2 = CellState.REVEALED ∧ b.grid p.1 p.2 ≠ MINE_VALUE))

/-- `Board._check_win`: on win, set the outcome flags and auto-flag every
still-hidden mine (in iteration order), incrementing `flags_placed` once
per cell. -/
def check_win (b : Board) : Board :=
  if (revealedNonMineCount b : Int) = (b.rows : Int) * (b.cols : Int) - (b.mines : Int) then
    (cellsList b.rows b.cols).foldl (fun acc p =>
      if acc.grid p.1 p.2 = MINE_VALUE ∧ acc.cell_states p.1 p.2 = CellState.HIDDEN then
        { acc with
          cell_states := setS acc.cell_states p.1 p.2 CellState.FLAGGED
          flags_placed := acc.flags_placed + 1 }
      else acc) { b with game_won := true, game_over := true }
  else b

/-- `Board.handle_click` from the grid-coordinate bounds check onwards
(`row`, `col` are the converted grid coordinates, `button` the mouse
button, `ms` the mine set chosen by `_place_mines` if this click places
the mines). -/
def handle_click (b : Board) (row col : Int) (button : Nat)
    (ms : Finset (Nat × Nat)) : Board :=
  if b.game_over = true ∨ b.game_won = true then b
  else if ¬(0 ≤ row ∧ row < (b.rows : Int) ∧ 0 ≤ col ∧ col < (b.cols : Int)) then b
  else
    let r : Nat := row.toNat
    let c : Nat := col.toNat
    let b1 : Board :=
      if button = 1 then
        let b2 : Board :=
          if b.first_click then
            { calculate_adjacent_mines (place_mines b r c ms) with first_click := false }
          else b
        if b2.cell_states r c ≠ CellState.FLAGGED then reveal b2 r c else b2
      else if button = 3 then
        if b.cell_states r c ≠ CellState.REVEALED then toggle_flag b r c else b
      else b
    if b1.game_over = true then b1 else check_win b1

/-- `Board.reset`: every game-state field is reassigned from the
configured settings. -/
def reset (_ : Board) : Board := Board.init GRID_ROWS GRID_COLS NUM_MINES

/-- Number of in-range cells currently in state FLAGGED. -/
def flagCount (b : Board) : Nat :=
  (cellsList b.rows b.cols).countP (fun p =>
    decide (b.cell_states p.1 p.2 = CellState.FLAGGED))

/-- Number of in-range cells not currently in state REVEALED (the
quantity the flood fill strictly decreases). -/
def nonRevealedCount (b : Board) : Nat :=
  (cellsList b.rows b.cols).countP (fun p =>
    decide (b.cell_states p.1 p.2 ≠ CellState.REVEALED))

/-- Number of in-range mine cells currently in state HIDDEN (the cells
`_check_win` auto-flags). -/
def hiddenMineCount (b : Board) : Nat :=
  (cellsList b.rows b.cols).countP (fun p =>
    decide (b.grid p.1 p.2 = MINE_VALUE ∧ b.cell_states p.1 p.2 = CellState.HIDDEN))

/-- Specification-side description of the neighbourhood of a cell: the
in-range cells other than `(r, c)` whose row and column each differ from
`(r, c)` by at most one and which hold a mine. -/
def mineNeighborSet (b : Board) (r c : Nat) : Finset (Nat × Nat) :=
  (Finset.range b.rows ×ˢ Finset.range b.cols).filter (fun p =>
    p ≠ (r, c) ∧ ((p.1 : Int) - (r : Int)).natAbs ≤ 1 ∧
      ((p.2 : Int) - (c : Int)).natAbs ≤ 1 ∧ b.grid p.1 p.2 = MINE_VALUE)

/-- A mined board: every in-range non-mine cell stores exactly its number
of adjacent mines (what `_calculate_adjacent_mines` establishes). -/
def MinedConsistent (b : Board) : Prop :=
  ∀ r < b.rows, ∀ c < b.cols,
    b.grid r c ≠ MINE_VALUE → b.grid r c = ((mineNeighborSet b r c).card : Int)

/-- No in-range zero-count cell has an in-range mine neighbour (the fact
about mined boards that keeps the cascade away from mines). -/
def NoMineAdjZero (b : Board) : Prop :=
  ∀ r c, r < b.rows → c < b.cols → b.grid r c = 0 →
    ∀ od ∈ neighborOffsets,
      0 ≤ (r : Int) + od.1 → (r : Int) + od.1 < (b.rows : Int) →
      0 ≤ (c : Int) + od.2 → (c : Int) + od.2 < (b.cols : Int) →
      b.grid ((r : Int) + od.1).toNat ((c : Int) + od.2).toNat ≠ MINE_VALUE

/-- The set of cells the flood fill starting at `(r₀, c₀)` reaches: paths
that expand only through in-range zero-count cells that are HIDDEN (or are
the starting cell itself), each step moving to an in-range HIDDEN
neighbour. -/
inductive Reach (b : Board) (r₀ c₀ : Nat) : Nat → Nat → Prop where
  | base : Reach b r₀ c₀ r₀ c₀
  | step (r c : Nat) (od : Int × Int) (nr nc : Nat) :
      Reach b r₀ c₀ r c → r < b.rows → c < b.cols → b.grid r c = 0 →
      (b.cell_states r c = CellState.HIDDEN ∨ (r = r₀ ∧ c = c₀)) →
      od ∈ neighborOffsets →
      (nr : Int) = (r : Int) + od.1 → (nc : Int) = (c : Int) + od.2 →
      nr < b.rows → nc < b.cols → b.cell_states nr nc = CellState.HIDDEN →
      Reach b r₀ c₀ nr nc

/-- One application of an engine operation, with `reveal` allowed on any
in-range coordinate — the operation set named by the specification's
reachable-state invariant. -/
inductive ClaimStep : Board → Board → Prop where
  | click (b : Board) (row col : Int) (button : Nat) (ms : Finset (Nat × Nat)) :
      ValidPlacement b row.toNat col.toNat ms → ClaimStep b (handle_click b row col button ms)
  | rev (b : Board) (r c : Nat) : r < b.rows → c < b.cols → ClaimStep b (reveal b r c)
  | toggle (b : Board) (r c : Nat) : r < b.rows → c < b.cols →
      ClaimStep b (toggle_flag b r c)
  | checkWin (b : Board) : ClaimStep b (check_win b)
  | revealAll (b : Board) : ClaimStep b (reveal_all_mines b)
  | doReset (b : Board) : ClaimStep b (reset b)

/-- One application of an engine operation, with direct `reveal` calls
restricted to cells that are not FLAGGED — the discipline `handle_click`
itself enforces before calling `reveal`. -/
inductive EngineStep : Board → Board → Prop where
  | click (b : Board) (row col : Int) (button : Nat) (ms : Finset (Nat × Nat)) :
      ValidPlacement b row.toNat col.toNat ms → EngineStep b (handle_click b row col button ms)
  | rev (b : Board) (r c : Nat) : r < b.rows → c < b.cols →
      b.cell_states r c ≠ CellState.FLAGGED → EngineStep b (reveal b r c)
  | toggle (b : Board) (r c : Nat) : r < b.rows → c < b.cols →
      EngineStep b (toggle_flag b r c)
  | checkWin (b : Board) : EngineStep b (check_win b)
  | revealAll (b : Board) : EngineStep b (reveal_all_mines b)
  | doReset (b : Board) : EngineStep b (reset b)

/-- Frame of `reveal`: every field except `cell_states` and `game_over`
is preserved. -/
def RevealFrame (b b' : Board) : Prop :=
  b'.rows = b.rows ∧ b'.cols = b.cols ∧ b'.grid = b.grid ∧ b'.mines = b.mines ∧
    b'.flags_placed = b.flags_placed ∧ b'.mines_location = b.mines_location ∧
    b'.first_click = b.first_click ∧ b'.game_won = b.game_won

/-- Cell states only ever change *to* REVEALED during `reveal`. -/
def ChgRev (b b' : Board) : Prop :=
  ∀ r c, b'.cell_states r c = b.cell_states r c ∨
    b'.cell_states r c = CellState.REVEALED

/-- A finished game (for claim C1): a board with `game_over` set and a
hidden cell left. -/
def overBoard : Board := { Board.init 1 1 0 with game_over := true }

/-- For claim C2: flag the single cell of a fresh 1×1 board, then call
`reveal` directly on the flagged cell. -/
def c2Board : Board := reveal (toggle_flag (Board.init 1 1 0) 0 0) 0 0

/-- For claim C3: a fresh 1×1 board with its cell flagged. -/
def c3Board : Board := toggle_flag (Board.init 1 1 0) 0 0

/-- For claim C4: a mine-free 1×3 board whose middle cell is flagged, so
the whole grid is one zero-count region but the flag blocks the cascade. -/
def c4Board : Board :=
  { Board.init 1 3 0 with
    cell_states := fun r c => if r = 0 ∧ c = 1 then CellState.FLAGGED else CellState.HIDDEN
    flags_placed := 1 }

/-- For claim C8: a 1×1 board whose single cell is a mine that is already
REVEALED while `game_over` is still false. -/
def c8Board : Board :=
  { Board.init 1 1 1 with
    grid := fun _ _ => MINE_VALUE
    cell_states := fun _ _ => CellState.REVEALED }

/-- Witness board for claim C4: a mine-free all-hidden 2×2 board. -/
def c4Witness : Board := Board.init 2 2 0

/-- Witness board for claim C8: a 2×1 board with a mine at `(1, 0)`,
both cells hidden. -/
def c8Witness : Board :=
  { Board.init 2 1 1 with grid := fun r _ => if r = 1 then MINE_VALUE else 1 }

/-- Witness board for claim C5: a fully revealed mine-free 1×1 board. -/
def c5Witness : Board :=
  { Board.init 1 1 0 with cell_states := fun _ _ => CellState.REVEALED }

/-! ### Basic helpers -/

theorem setS_self (s : Nat → Nat → CellState) (r c : Nat) (v : CellState) :
    setS s r c v r c = v := by simp [setS]

theorem setS_ne (s : Nat → Nat → CellState) (r c : Nat) (v : CellState)
    (r' c' : Nat) (h : ¬(r' = r ∧ c' = c)) : setS s r c v r' c' = s r' c' := by
  simp [setS, h]

theorem mem_cellsList {rows cols : Nat} {p : Nat × Nat} :
    p ∈ cellsList rows cols ↔ p.1 < rows ∧ p.2 < cols := by
  obtain ⟨a, b⟩ := p
  simp [cellsList, List.mem_product]

theorem cellsList_nodup (rows cols : Nat) : (cellsList rows cols).Nodup :=
  (List.nodup_range rows).product (List.nodup_range cols)

theorem cellsList_length (rows cols : Nat) :
    (cellsList rows cols).length = rows * cols := by
  simp [cellsList, List.length_product]

theorem neighborOffsets_spec :
    ∀ od ∈ neighborOffsets, ¬(od.1 = 0 ∧ od.2 = 0) ∧
      od.1.natAbs ≤ 1 ∧ od.2.natAbs ≤ 1 := by decide

theorem mem_neighborOffsets {od : Int × Int}
    (h1 : ¬(od.1 = 0 ∧ od.2 = 0)) (h2 : od.1.natAbs ≤ 1) (h3 : od.2.natAbs ≤ 1) :
    od ∈ neighborOffsets := by
  obtain ⟨a, b⟩ := od
  simp only [neighborOffsets, List.mem_cons, List.not_mem_nil, or_false,
    Prod.mk.injEq] at *
  omega

/-- A left fold preserves any reflexive transitive relation each step
preserves. -/
theorem foldl_rel {α : Type} (R : Board → Board → Prop)
    (hrefl : ∀ x, R x x) (htrans : ∀ x y z, R x y → R y z → R x z)
    (g : Board → α → Board) (hstep : ∀ x od, R x (g x od)) :
    ∀ (os : List α) (acc : Board), R acc (os.foldl g acc) := by
  intro os
  induction os with
  | nil => intro acc; exact hrefl acc
  | cons od os ih =>
    intro acc
    exact htrans _ _ _ (hstep acc od) (ih (g acc od))

/-- Counting with two predicates that differ at most at one list element
of a duplicate-free list. -/
theorem countP_update {α : Type} (l : List α) (hl : l.Nodup) (a : α)
    (hal : a ∈ l) (p q : α → Bool) (hsame : ∀ x ∈ l, x ≠ a → p x = q x) :
    l.countP q + (if p a then 1 else 0) = l.countP p + (if q a then 1 else 0) := by
  induction l with
  | nil => cases hal
  | cons x l ih =>
    rw [List.countP_cons, List.countP_cons]
    have hnd := List.nodup_cons.mp hl
    rcases List.mem_cons.mp hal with heq | hal'
    · have hcong : l.countP p = l.countP q := by
        apply List.countP_congr
        intro y hy
        have hya : y ≠ a := by
          intro h
          rw [heq] at h
          exact hnd.1 (h ▸ hy)
        rw [hsame y (List.mem_cons_of_mem _ hy) hya]
      rw [heq, hcong]
      ring
    · have hx : x ≠ a := fun h => hnd.1 (h ▸ hal')
      rw [hsame x (List.mem_cons_self x l) hx]
      have hrec := ih hnd.2 hal'
        (fun y hy hya => hsame y (List.mem_cons_of_mem _ hy) hya)
      omega

/-! ### Counting lemmas -/

theorem flagCount_congr {b b' : Board} (hr : b'.rows = b.rows)
    (hc : b'.cols = b.cols)
    (h : ∀ r c : Nat, r < b.rows → c < b.cols →
      (b'.cell_states r c = CellState.FLAGGED ↔ b.cell_states r c = CellState.FLAGGED)) :
    flagCount b' = flagCount b := by
  unfold flagCount
  rw [hr, hc]
  apply List.countP_congr
  intro p hp
  have hm := mem_cellsList.mp hp
  simp only [decide_eq_true_eq]
  exact h p.1 p.2 hm.1 hm.2

theorem flagCount_setS_flag (b : Board) (r c : Nat) (hr : r < b.rows)
    (hc : c < b.cols) (h : b.cell_states r c ≠ CellState.FLAGGED) :
    flagCount { b with cell_states := setS b.cell_states r c CellState.FLAGGED } =
      flagCount b + 1 := by
  have h2 := countP_update (cellsList b.rows b.cols) (cellsList_nodup _ _) (r, c)
    (mem_cellsList.mpr ⟨hr, hc⟩)
    (fun p => decide (b.cell_states p.1 p.2 = CellState.FLAGGED))
    (fun p => decide (setS b.cell_states r c CellState.FLAGGED p.1 p.2 = CellState.FLAGGED))
    (fun x _ hx => by
      have : ¬(x.1 = r ∧ x.2 = c) := fun hxx => hx (Prod.ext hxx.1 hxx.2)
      simp [setS_ne _ _ _ _ _ _ this])
  simp only [setS_self, h, decide_eq_true_eq, reduceCtorEq, if_true, if_false,
    ne_eq, not_false_eq_true] at h2
  unfold flagCount
  dsimp only
  omega

theorem flagCount_setS_unflag (b : Board) (r c : Nat) (hr : r < b.rows)
    (hc : c < b.cols) (h : b.cell_states r c = CellState.FLAGGED) :
    flagCount { b with cell_states := setS b.cell_states r c CellState.HIDDEN } + 1 =
      flagCount b := by
  have h2 := countP_update (cellsList b.rows b.cols) (cellsList_nodup _ _) (r, c)
    (mem_cellsList.mpr ⟨hr, hc⟩)
    (fun p => decide (b.cell_states p.1 p.2 = CellState.FLAGGED))
    (fun p => decide (setS b.cell_states r c CellState.HIDDEN p.1 p.2 = CellState.FLAGGED))
    (fun x _ hx => by
      have : ¬(x.1 = r ∧ x.2 = c) := fun hxx => hx (Prod.ext hxx.1 hxx.2)
      simp [setS_ne _ _ _ _ _ _ this])
  simp only [setS_self, h, decide_eq_true_eq, reduceCtorEq, if_true, if_false,
    ne_eq, not_false_eq_true] at h2
  unfold flagCount
  dsimp only
  omega

theorem nonRevealedCount_setS_revealed (b : Board) (r c : Nat) (hr : r < b.rows)
    (hc : c < b.cols) (h : b.cell_states r c ≠ CellState.REVEALED) :
    nonRevealedCount { b with cell_states := setS b.cell_states r c CellState.REVEALED } + 1 =
      nonRevealedCount b := by
  have h2 := countP_update (cellsList b.rows b.cols) (cellsList_nodup _ _) (r, c)
    (mem_cellsList.mpr ⟨hr, hc⟩)
    (fun p => decide (b.cell_states p.1 p.2 ≠ CellState.REVEALED))
    (fun p => decide (setS b.cell_states r c CellState.REVEALED p.1 p.2 ≠ CellState.REVEALED))
    (fun x _ hx => by
      have : ¬(x.1 = r ∧ x.2 = c) := fun hxx => hx (Prod.ext hxx.1 hxx.2)
      simp [setS_ne _ _ _ _ _ _ this])
  simp only [setS_self, h, decide_eq_true_eq, reduceCtorEq, if_true, if_false,
    ne_eq, not_false_eq_true, not_true, not_true_eq_false] at h2
  unfold nonRevealedCount
  dsimp only
  simp only [ne_eq]
  omega

theorem chgRev_refl (b : Board) : ChgRev b b := fun _ _ => Or.inl rfl

theorem chgRev_trans {a b c : Board} (h1 : ChgRev a b) (h2 : ChgRev b c) :
    ChgRev a c := by
  intro r cc
  rcases h2 r cc with h | h
  · rw [h]; exact h1 r cc
  · exact Or.inr h

theorem chgRev_revealed {b b' : Board} (h : ChgRev b b') {r c : Nat}
    (hb : b.cell_states r c = CellState.REVEALED) :
    b'.cell_states r c = CellState.REVEALED := by
  rcases h r c with h | h
  · rw [h, hb]
  · exact h

theorem chgRev_hidden {b b' : Board} (h : ChgRev b b') {r c : Nat}
    (hb : b'.cell_states r c = CellState.HIDDEN) :
    b.cell_states r c = CellState.HIDDEN := by
  rcases h r c with h | h
  · rw [← h, hb]
  · rw [h] at hb; cases hb

theorem chgRev_flagged_back {b b' : Board} (h : ChgRev b b') {r c : Nat}
    (hb : b'.cell_states r c = CellState.FLAGGED) :
    b.cell_states r c = CellState.FLAGGED := by
  rcases h r c with h | h
  · rw [← h, hb]
  · rw [h] at hb; cases hb

theorem nonRevealedCount_mono {b b' : Board} (hr : b'.rows = b.rows)
    (hc : b'.cols = b.cols) (h : ChgRev b b') :
    nonRevealedCount b' ≤ nonRevealedCount b := by
  unfold nonRevealedCount
  rw [hr, hc]
  apply List.countP_mono_left
  intro p _
  simp only [decide_eq_true_eq]
  intro hp hb
  rcases h p.1 p.2 with he | he
  · exact hp (he.trans hb)
  · exact hp he

theorem nonRevealedCount_le (b : Board) :
    nonRevealedCount b ≤ b.rows * b.cols := by
  calc nonRevealedCount b ≤ (cellsList b.rows b.cols).length :=
        List.countP_le_length _
    _ = b.rows * b.cols := cellsList_length _ _

theorem nonRevealedCount_zero {b : Board} (h : nonRevealedCount b = 0)
    {r c : Nat} (hr : r < b.rows) (hc : c < b.cols) :
    b.cell_states r c = CellState.REVEALED := by
  have := List.countP_eq_zero.mp h (r, c) (mem_cellsList.mpr ⟨hr, hc⟩)
  simp only [decide_eq_true_eq] at this
  exact not_not.mp this

theorem revealFrame_refl (b : Board) : RevealFrame b b :=
  ⟨rfl, rfl, rfl, rfl, rfl, rfl, rfl, rfl⟩

theorem revealFrame_trans {a b c : Board} (h1 : RevealFrame a b)
    (h2 : RevealFrame b c) : RevealFrame a c := by
  obtain ⟨a1, a2, a3, a4, a5, a6, a7, a8⟩ := h1
  obtain ⟨b1, b2, b3, b4, b5, b6, b7, b8⟩ := h2
  exact ⟨b1.trans a1, b2.trans a2, b3.trans a3, b4.trans a4, b5.trans a5,
    b6.trans a6, b7.trans a7, b8.trans a8⟩

/-! ### `_reveal_all_mines`: loop characterisation -/

theorem ram_fold_spec (l : List (Nat × Nat)) (hl : l.Nodup) :
    ∀ (b : Board) (r c : Nat),
      (l.foldl (fun acc p =>
        if acc.grid p.1 p.2 = MINE_VALUE ∧ acc.cell_states p.1 p.2 ≠ CellState.FLAGGED then
          { acc with cell_states := setS acc.cell_states p.1 p.2 CellState.REVEALED }
        else acc) b).cell_states r c =
      if (r, c) ∈ l ∧ b.grid r c = MINE_VALUE ∧ b.cell_states r c ≠ CellState.FLAGGED
      then CellState.REVEALED else b.cell_states r c := by
  induction l with
  | nil =>
    intro b r c
    simp
  | cons q l ih =>
    intro b r c
    obtain ⟨q1, q2⟩ := q
    rw [List.foldl_cons]
    have hnd := List.nodup_cons.mp hl
    by_cases hrc : (r, c) = (q1, q2)
    · obtain ⟨hr1, hc1⟩ := Prod.mk.injEq .. ▸ hrc
      subst hr1
      subst hc1
      have hnot : (r, c) ∉ l := hrc ▸ hnd.1
      by_cases hq : b.grid r c = MINE_VALUE ∧ b.cell_states r c ≠ CellState.FLAGGED
      · rw [if_pos hq, ih hnd.2]
        dsimp only
        rw [if_neg (fun hcontra => hnot hcontra.1), setS_self,
          if_pos ⟨List.mem_cons_self _ l, hq⟩]
      · rw [if_neg hq, ih hnd.2,
          if_neg (fun hcontra => hnot hcontra.1),
          if_neg (fun hcc => hq hcc.2)]
    · have hmemiff : ((r, c) ∈ (q1, q2) :: l) ↔ ((r, c) ∈ l) := by
        rw [List.mem_cons]
        exact or_iff_right hrc
      have hne : ¬(r = q1 ∧ c = q2) := by
        intro hcc
        exact hrc (Prod.ext hcc.1 hcc.2)
      by_cases hq : b.grid q1 q2 = MINE_VALUE ∧ b.cell_states q1 q2 ≠ CellState.FLAGGED
      · rw [if_pos hq, ih hnd.2]
        dsimp only
        rw [setS_ne _ _ _ _ _ _ hne]
        by_cases hcond : (r, c) ∈ l ∧ b.grid r c = MINE_VALUE ∧
            b.cell_states r c ≠ CellState.FLAGGED
        · rw [if_pos hcond, if_pos ⟨hmemiff.mpr hcond.1, hcond.2⟩]
        · rw [if_neg hcond, if_neg (fun hcc => hcond ⟨hmemiff.mp hcc.1, hcc.2⟩)]
      · rw [if_neg hq, ih hnd.2]
        by_cases hcond : (r, c) ∈ l ∧ b.grid r c = MINE_VALUE ∧
            b.cell_states r c ≠ CellState.FLAGGED
        · rw [if_pos hcond, if_pos ⟨hmemiff.mpr hcond.1, hcond.2⟩]
        · rw [if_neg hcond, if_neg (fun hcc => hcond ⟨hmemiff.mp hcc.1, hcc.2⟩)]

/-- State change performed by `_reveal_all_mines`: exactly the in-range
unflagged mine cells become REVEALED. -/
theorem reveal_all_mines_states (b : Board) (r c : Nat) :
    (reveal_all_mines b).cell_states r c =
      if r < b.rows ∧ c < b.cols ∧ b.grid r c = MINE_VALUE ∧
          b.cell_states r c ≠ CellState.FLAGGED
      then CellState.REVEALED else b.cell_states r c := by
  unfold reveal_all_mines
  rw [ram_fold_spec _ (cellsList_nodup _ _)]
  by_cases hin : r < b.rows ∧ c < b.cols
  · by_cases hcond : b.grid r c = MINE_VALUE ∧ b.cell_states r c ≠ CellState.FLAGGED
    · rw [if_pos ⟨mem_cellsList.mpr hin, hcond⟩,
        if_pos ⟨hin.1, hin.2, hcond.1, hcond.2⟩]
    · rw [if_neg (fun hcc => hcond hcc.2),
        if_neg (fun hcc => hcond ⟨hcc.2.2.1, hcc.2.2.2⟩)]
  · rw [if_neg (fun hcc => hin (mem_cellsList.mp hcc.1)),
      if_neg (fun hcc => hin ⟨hcc.1, hcc.2.1⟩)]

/-- `_reveal_all_mines` changes no field but `cell_states`. -/
theorem reveal_all_mines_frame (b : Board) :
    RevealFrame b (reveal_all_mines b) ∧
      (reveal_all_mines b).game_over = b.game_over := by
  unfold reveal_all_mines
  refine foldl_rel (fun x y => RevealFrame x y ∧ y.game_over = x.game_over)
    (fun x => ⟨revealFrame_refl x, rfl⟩)
    (fun x y z h1 h2 => ⟨revealFrame_trans h1.1 h2.1, h2.2.trans h1.2⟩)
    _ (fun x p => ?_) _ b
  by_cases hc : x.grid p.1 p.2 = MINE_VALUE ∧ x.cell_states p.1 p.2 ≠ CellState.FLAGGED
  · rw [if_pos hc]
    exact ⟨⟨rfl, rfl, rfl, rfl, rfl, rfl, rfl, rfl⟩, rfl⟩
  · rw [if_neg hc]
    exact ⟨revealFrame_refl x, rfl⟩

/-- `_reveal_all_mines` only turns cells REVEALED. -/
theorem reveal_all_mines_chg (b : Board) : ChgRev b (reveal_all_mines b) := by
  intro r c
  rw [reveal_all_mines_states]
  by_cases h : r < b.rows ∧ c < b.cols ∧ b.grid r c = MINE_VALUE ∧
      b.cell_states r c ≠ CellState.FLAGGED
  · rw [if_pos h]; exact Or.inr rfl
  · rw [if_neg h]; exact Or.inl rfl

/-! ### `_check_win`: loop characterisation -/

theorem cw_fold_states (l : List (Nat × Nat)) (hl : l.Nodup) :
    ∀ (b : Board) (r c : Nat),
      (l.foldl (fun acc p =>
        if acc.grid p.1 p.2 = MINE_VALUE ∧ acc.cell_states p.1 p.2 = CellState.HIDDEN then
          { acc with
            cell_states := setS acc.cell_states p.1 p.2 CellState.FLAGGED
            flags_placed := acc.flags_placed + 1 }
        else acc) b).cell_states r c =
      if (r, c) ∈ l ∧ b.grid r c = MINE_VALUE ∧ b.cell_states r c = CellState.HIDDEN
      then CellState.FLAGGED else b.cell_states r c := by
  induction l with
  | nil =>
    intro b r c
    simp
  | cons q l ih =>
    intro b r c
    obtain ⟨q1, q2⟩ := q
    rw [List.foldl_cons]
    have hnd := List.nodup_cons.mp hl
    by_cases hrc : (r, c) = (q1, q2)
    · obtain ⟨hr1, hc1⟩ := Prod.mk.injEq .. ▸ hrc
      subst hr1
      subst hc1
      have hnot : (r, c) ∉ l := hrc ▸ hnd.1
      by_cases hq : b.grid r c = MINE_VALUE ∧ b.cell_states r c = CellState.HIDDEN
      · rw [if_pos hq, ih hnd.2]
        dsimp only
        rw [if_neg (fun hcontra => hnot hcontra.1), setS_self,
          if_pos ⟨List.mem_cons_self _ l, hq⟩]
      · rw [if_neg hq, ih hnd.2,
          if_neg (fun hcontra => hnot hcontra.1),
          if_neg (fun hcc => hq hcc.2)]
    · have hmemiff : ((r, c) ∈ (q1, q2) :: l) ↔ ((r, c) ∈ l) := by
        rw [List.mem_cons]
        exact or_iff_right hrc
      have hne : ¬(r = q1 ∧ c = q2) := by
        intro hcc
        exact hrc (Prod.ext hcc.1 hcc.2)
      by_cases hq : b.grid q1 q2 = MINE_VALUE ∧ b.cell_states q1 q2 = CellState.HIDDEN
      · rw [if_pos hq, ih hnd.2]
        dsimp only
        rw [setS_ne _ _ _ _ _ _ hne]
        by_cases hcond : (r, c) ∈ l ∧ b.grid r c = MINE_VALUE ∧
            b.cell_states r c = CellState.HIDDEN
        · rw [if_pos hcond, if_pos ⟨hmemiff.mpr hcond.1, hcond.2⟩]
        · rw [if_neg hcond, if_neg (fun hcc => hcond ⟨hmemiff.mp hcc.1, hcc.2⟩)]
      · rw [if_neg hq, ih hnd.2]
        by_cases hcond : (r, c) ∈ l ∧ b.grid r c = MINE_VALUE ∧
            b.cell_states r c = CellState.HIDDEN
        · rw [if_pos hcond, if_pos ⟨hmemiff.mpr hcond.1, hcond.2⟩]
        · rw [if_neg hcond, if_neg (fun hcc => hcond ⟨hmemiff.mp hcc.1, hcc.2⟩)]

theorem cw_fold_flags (l : List (Nat × Nat)) (hl : l.Nodup) :
    ∀ (b : Board),
      (l.foldl (fun acc p =>
        if acc.grid p.1 p.2 = MINE_VALUE ∧ acc.cell_states p.1 p.2 = CellState.HIDDEN then
          { acc with
            cell_states := setS acc.cell_states p.1 p.2 CellState.FLAGGED
            flags_placed := acc.flags_placed + 1 }
        else acc) b).flags_placed =
      b.flags_placed + ((l.countP (fun p =>
        decide (b.grid p.1 p.2 = MINE_VALUE ∧ b.cell_states p.1 p.2 = CellState.HIDDEN)) : Nat) : Int) := by
  induction l with
  | nil =>
    intro b
    simp
  | cons q l ih =>
    intro b
    obtain ⟨q1, q2⟩ := q
    rw [List.foldl_cons, List.countP_cons]
    have hnd := List.nodup_cons.mp hl
    by_cases hq : b.grid q1 q2 = MINE_VALUE ∧ b.cell_states q1 q2 = CellState.HIDDEN
    · rw [if_pos hq, ih hnd.2]
      dsimp only
      have hcountEq : l.countP (fun p =>
            decide (b.grid p.1 p.2 = MINE_VALUE ∧
              (setS b.cell_states q1 q2 CellState.FLAGGED) p.1 p.2 = CellState.HIDDEN)) =
          l.countP (fun p =>
            decide (b.grid p.1 p.2 = MINE_VALUE ∧ b.cell_states p.1 p.2 = CellState.HIDDEN)) := by
        apply List.countP_congr
        intro x hx
        have hxq : ¬(x.1 = q1 ∧ x.2 = q2) := by
          intro hcc
          exact hnd.1 ((Prod.ext hcc.1 hcc.2 : x = (q1, q2)) ▸ hx)
        rw [setS_ne _ _ _ _ _ _ hxq]
      rw [hcountEq]
      have hone : (if (fun p => decide (b.grid p.1 p.2 = MINE_VALUE ∧
          b.cell_states p.1 p.2 = CellState.HIDDEN)) (q1, q2) then 1 else 0) = 1 := by
        simp only [decide_eq_true_eq]
        rw [if_pos hq]
      rw [hone]
      push_cast
      ring
    · rw [if_neg hq, ih hnd.2]
      have hzero : (if (fun p => decide (b.grid p.1 p.2 = MINE_VALUE ∧
          b.cell_states p.1 p.2 = CellState.HIDDEN)) (q1, q2) then 1 else 0) = 0 := by
        simp only [decide_eq_true_eq]
        rw [if_neg hq]
      rw [hzero, Nat.add_zero]

theorem cw_fold_frame (l : List (Nat × Nat)) (b : Board) :
    (let res := l.foldl (fun acc p =>
        if acc.grid p.1 p.2 = MINE_VALUE ∧ acc.cell_states p.1 p.2 = CellState.HIDDEN then
          { acc with
            cell_states := setS acc.cell_states p.1 p.2 CellState.FLAGGED
            flags_placed := acc.flags_placed + 1 }
        else acc) b
     res.rows = b.rows ∧ res.cols = b.cols ∧ res.grid = b.grid ∧
      res.mines = b.mines ∧ res.mines_location = b.mines_location ∧
      res.first_click = b.first_click ∧ res.game_over = b.game_over ∧
      res.game_won = b.game_won) := by
  refine foldl_rel (fun x y => y.rows = x.rows ∧ y.cols = x.cols ∧ y.grid = x.grid ∧
      y.mines = x.mines ∧ y.mines_location = x.mines_location ∧
      y.first_click = x.first_click ∧ y.game_over = x.game_over ∧
      y.game_won = x.game_won)
    (fun x => ⟨rfl, rfl, rfl, rfl, rfl, rfl, rfl, rfl⟩)
    (fun x y z h1 h2 => ⟨h2.1.trans h1.1, h2.2.1.trans h1.2.1, h2.2.2.1.trans h1.2.2.1,
      h2.2.2.2.1.trans h1.2.2.2.1, h2.2.2.2.2.1.trans h1.2.2.2.2.1,
      h2.2.2.2.2.2.1.trans h1.2.2.2.2.2.1, h2.2.2.2.2.2.2.1.trans h1.2.2.2.2.2.2.1,
      h2.2.2.2.2.2.2.2.trans h1.2.2.2.2.2.2.2⟩)
    _ (fun x p => ?_) l b
  by_cases hc : x.grid p.1 p.2 = MINE_VALUE ∧ x.cell_states p.1 p.2 = CellState.HIDDEN
  · rw [if_pos hc]
    exact ⟨rfl, rfl, rfl, rfl, rfl, rfl, rfl, rfl⟩
  · rw [if_neg hc]
    exact ⟨rfl, rfl, rfl, rfl, rfl, rfl, rfl, rfl⟩

/-- `_check_win` does nothing when the revealed count misses the target. -/
theorem check_win_no_win (b : Board)
    (h : ¬((revealedNonMineCount b : Int) =
      (b.rows : Int) * (b.cols : Int) - (b.mines : Int))) :
    check_win b = b := by
  unfold check_win
  rw [if_neg h]

/-- Full effect of `_check_win` in the winning case: outcome flags set,
every in-range hidden mine auto-flagged, `flags_placed` bumped once per
auto-flagged cell, everything else untouched. -/
theorem check_win_win_spec (b : Board)
    (h : (revealedNonMineCount b : Int) =
      (b.rows : Int) * (b.cols : Int) - (b.mines : Int)) :
    (check_win b).game_won = true ∧ (check_win b).game_over = true ∧
    (∀ r c, (check_win b).cell_states r c =
      if r < b.rows ∧ c < b.cols ∧ b.grid r c = MINE_VALUE ∧
          b.cell_states r c = CellState.HIDDEN
      then CellState.FLAGGED else b.cell_states r c) ∧
    (check_win b).flags_placed = b.flags_placed + (hiddenMineCount b : Int) ∧
    (check_win b).rows = b.rows ∧ (check_win b).cols = b.cols ∧
    (check_win b).grid = b.grid ∧ (check_win b).mines = b.mines ∧
    (check_win b).mines_location = b.mines_location ∧
    (check_win b).first_click = b.first_click := by
  have hcw : check_win b =
      (cellsList b.rows b.cols).foldl (fun acc p =>
        if acc.grid p.1 p.2 = MINE_VALUE ∧ acc.cell_states p.1 p.2 = CellState.HIDDEN then
          { acc with
            cell_states := setS acc.cell_states p.1 p.2 CellState.FLAGGED
            flags_placed := acc.flags_placed + 1 }
        else acc) { b with game_won := true, game_over := true } := by
    unfold check_win
    rw [if_pos h]
  have hframe := cw_fold_frame (cellsList b.rows b.cols)
    { b with game_won := true, game_over := true }
  dsimp only at hframe
  rw [hcw]
  refine ⟨hframe.2.2.2.2.2.2.2, hframe.2.2.2.2.2.2.1, ?_, ?_,
    hframe.1, hframe.2.1, hframe.2.2.1, hframe.2.2.2.1, hframe.2.2.2.2.1,
    hframe.2.2.2.2.2.1⟩
  · intro r c
    rw [cw_fold_states _ (cellsList_nodup _ _)]
    dsimp only
    by_cases hin : r < b.rows ∧ c < b.cols
    · by_cases hcond : b.grid r c = MINE_VALUE ∧ b.cell_states r c = CellState.HIDDEN
      · rw [if_pos ⟨mem_cellsList.mpr hin, hcond⟩,
          if_pos ⟨hin.1, hin.2, hcond.1, hcond.2⟩]
      · rw [if_neg (fun hcc => hcond hcc.2),
          if_neg (fun hcc => hcond ⟨hcc.2.2.1, hcc.2.2.2⟩)]
    · rw [if_neg (fun hcc => hin (mem_cellsList.mp hcc.1)),
        if_neg (fun hcc => hin ⟨hcc.1, hcc.2.1⟩)]
  · rw [cw_fold_flags _ (cellsList_nodup _ _)]
    rfl

/-! ### `_calculate_adjacent_mines`: loop characterisation -/

theorem setG_self (g : Nat → Nat → Int) (r c : Nat) (v : Int) :
    setG g r c v r c = v := by simp [setG]

theorem setG_ne (g : Nat → Nat → Int) (r c : Nat) (v : Int)
    (r' c' : Nat) (h : ¬(r' = r ∧ c' = c)) : setG g r c v r' c' = g r' c' := by
  simp [setG, h]

/-- The neighbour count only looks at which cells hold `MINE_VALUE`. -/
theorem adjMineCount_congr {g1 g2 : Nat → Nat → Int} (rows cols r c : Nat)
    (h : ∀ r' c', g1 r' c' = MINE_VALUE ↔ g2 r' c' = MINE_VALUE) :
    adjMineCount g1 rows cols r c = adjMineCount g2 rows cols r c := by
  unfold adjMineCount
  apply List.countP_congr
  intro od _
  simp only [decide_eq_true_eq]
  constructor
  · intro hcc
    exact ⟨hcc.1, hcc.2.1, hcc.2.2.1, hcc.2.2.2.1, (h _ _).mp hcc.2.2.2.2⟩
  · intro hcc
    exact ⟨hcc.1, hcc.2.1, hcc.2.2.1, hcc.2.2.2.1, (h _ _).mpr hcc.2.2.2.2⟩

theorem calc_fold_grid (l : List (Nat × Nat)) (hl : l.Nodup) :
    ∀ (b : Board) (r c : Nat),
      (l.foldl (fun acc p =>
        if acc.grid p.1 p.2 ≠ MINE_VALUE then
          { acc with
            grid := setG acc.grid p.1 p.2
              (adjMineCount acc.grid acc.rows acc.cols p.1 p.2) }
        else acc) b).grid r c =
      if (r, c) ∈ l ∧ b.grid r c ≠ MINE_VALUE
      then ((adjMineCount b.grid b.rows b.cols r c : Nat) : Int) else b.grid r c := by
  induction l with
  | nil =>
    intro b r c
    simp
  | cons q l ih =>
    intro b r c
    obtain ⟨q1, q2⟩ := q
    rw [List.foldl_cons]
    have hnd := List.nodup_cons.mp hl
    by_cases hq : b.grid q1 q2 ≠ MINE_VALUE
    · rw [if_pos hq, ih hnd.2]
      dsimp only
      have hmina : ∀ r' c',
          setG b.grid q1 q2
            ((adjMineCount b.grid b.rows b.cols q1 q2 : Nat) : Int) r' c' = MINE_VALUE ↔
          b.grid r' c' = MINE_VALUE := by
        intro r' c'
        by_cases hqq : r' = q1 ∧ c' = q2
        · rw [hqq.1, hqq.2, setG_self]
          constructor
          · intro hcc
            have : (0 : Int) ≤ (adjMineCount b.grid b.rows b.cols q1 q2 : Int) :=
              Int.natCast_nonneg _
            rw [hcc] at this
            norm_num [MINE_VALUE] at this
          · intro hcc
            exact absurd hcc hq
        · rw [setG_ne _ _ _ _ _ _ hqq]
      have hcnt : ∀ r' c', adjMineCount
          (setG b.grid q1 q2 ((adjMineCount b.grid b.rows b.cols q1 q2 : Nat) : Int))
          b.rows b.cols r' c' = adjMineCount b.grid b.rows b.cols r' c' :=
        fun r' c' => adjMineCount_congr _ _ _ _ hmina
      by_cases hrc : (r, c) = (q1, q2)
      · obtain ⟨hr1, hc1⟩ := Prod.mk.injEq .. ▸ hrc
        subst hr1
        subst hc1
        have hnot : (r, c) ∉ l := hrc ▸ hnd.1
        rw [if_neg (fun hcontra => hnot hcontra.1), setG_self,
          if_pos ⟨List.mem_cons_self _ l, hq⟩]
      · have hne : ¬(r = q1 ∧ c = q2) := fun hcc => hrc (Prod.ext hcc.1 hcc.2)
        have hmemiff : ((r, c) ∈ (q1, q2) :: l) ↔ ((r, c) ∈ l) := by
          rw [List.mem_cons]
          exact or_iff_right hrc
        rw [hcnt, setG_ne _ _ _ _ _ _ hne]
        by_cases hcond : (r, c) ∈ l ∧ b.grid r c ≠ MINE_VALUE
        · rw [if_pos hcond, if_pos ⟨hmemiff.mpr hcond.1, hcond.2⟩]
        · rw [if_neg hcond, if_neg (fun hcc => hcond ⟨hmemiff.mp hcc.1, hcc.2⟩)]
    · rw [if_neg hq, ih hnd.2]
      by_cases hrc : (r, c) = (q1, q2)
      · obtain ⟨hr1, hc1⟩ := Prod.mk.injEq .. ▸ hrc
        subst hr1
        subst hc1
        have hnot : (r, c) ∉ l := hrc ▸ hnd.1
        rw [if_neg (fun hcontra => hnot hcontra.1),
          if_neg (fun hcc => hcc.2 (not_not.mp hq))]
      · have hmemiff : ((r, c) ∈ (q1, q2) :: l) ↔ ((r, c) ∈ l) := by
          rw [List.mem_cons]
          exact or_iff_right hrc
        by_cases hcond : (r, c) ∈ l ∧ b.grid r c ≠ MINE_VALUE
        · rw [if_pos hcond, if_pos ⟨hmemiff.mpr hcond.1, hcond.2⟩]
        · rw [if_neg hcond, if_neg (fun hcc => hcond ⟨hmemiff.mp hcc.1, hcc.2⟩)]

/-- Grid after `_calculate_adjacent_mines`: every in-range non-mine cell
holds its neighbour-mine count, every other cell is untouched. -/
theorem calculate_adjacent_mines_grid (b : Board) (r c : Nat) :
    (calculate_adjacent_mines b).grid r c =
      if r < b.rows ∧ c < b.cols ∧ b.grid r c ≠ MINE_VALUE
      then ((adjMineCount b.grid b.rows b.cols r c : Nat) : Int) else b.grid r c := by
  unfold calculate_adjacent_mines
  rw [calc_fold_grid _ (cellsList_nodup _ _)]
  by_cases hin : r < b.rows ∧ c < b.cols
  · by_cases hcond : b.grid r c ≠ MINE_VALUE
    · rw [if_pos ⟨mem_cellsList.mpr hin, hcond⟩, if_pos ⟨hin.1, hin.2, hcond⟩]
    · rw [if_neg (fun hcc => hcond hcc.2), if_neg (fun hcc => hcond hcc.2.2)]
  · rw [if_neg (fun hcc => hin (mem_cellsList.mp hcc.1)),
      if_neg (fun hcc => hin ⟨hcc.1, hcc.2.1⟩)]

/-- `_calculate_adjacent_mines` changes no field but `grid`. -/
theorem calculate_adjacent_mines_frame (b : Board) :
    (calculate_adjacent_mines b).rows = b.rows ∧
    (calculate_adjacent_mines b).cols = b.cols ∧
    (calculate_adjacent_mines b).cell_states = b.cell_states ∧
    (calculate_adjacent_mines b).mines = b.mines ∧
    (calculate_adjacent_mines b).flags_placed = b.flags_placed ∧
    (calculate_adjacent_mines b).mines_location = b.mines_location ∧
    (calculate_adjacent_mines b).first_click = b.first_click ∧
    (calculate_adjacent_mines b).game_over = b.game_over ∧
    (calculate_adjacent_mines b).game_won = b.game_won := by
  unfold calculate_adjacent_mines
  refine foldl_rel (fun x y => y.rows = x.rows ∧ y.cols = x.cols ∧
      y.cell_states = x.cell_states ∧ y.mines = x.mines ∧
      y.flags_placed = x.flags_placed ∧ y.mines_location = x.mines_location ∧
      y.first_click = x.first_click ∧ y.game_over = x.game_over ∧
      y.game_won = x.game_won)
    (fun x => ⟨rfl, rfl, rfl, rfl, rfl, rfl, rfl, rfl, rfl⟩)
    (fun x y z h1 h2 => ⟨h2.1.trans h1.1, h2.2.1.trans h1.2.1,
      h2.2.2.1.trans h1.2.2.1, h2.2.2.2.1.trans h1.2.2.2.1,
      h2.2.2.2.2.1.trans h1.2.2.2.2.1, h2.2.2.2.2.2.1.trans h1.2.2.2.2.2.1,
      h2.2.2.2.2.2.2.1.trans h1.2.2.2.2.2.2.1,
      h2.2.2.2.2.2.2.2.1.trans h1.2.2.2.2.2.2.2.1,
      h2.2.2.2.2.2.2.2.2.trans h1.2.2.2.2.2.2.2.2⟩)
    _ (fun x p => ?_) _ b
  by_cases hc : x.grid p.1 p.2 ≠ MINE_VALUE
  · rw [if_pos hc]
    exact ⟨rfl, rfl, rfl, rfl, rfl, rfl, rfl, rfl, rfl⟩
  · rw [if_neg hc]
    exact ⟨rfl, rfl, rfl, rfl, rfl, rfl, rfl, rfl, rfl⟩

/-! ### `reveal` recursion: frame, monotonicity, flag preservation -/

theorem revealFuel_frame : ∀ (f : Nat) (b : Board) (r c : Nat),
    RevealFrame b (revealFuel f b r c) := by
  intro f
  induction f with
  | zero =>
    intro b r c
    exact revealFrame_refl b
  | succ f ih =>
    intro b r c
    simp only [revealFuel]
    by_cases hg : b.game_over = true ∨ b.cell_states r c = CellState.REVEALED
    · rw [if_pos hg]
      exact revealFrame_refl b
    · rw [if_neg hg]
      have hb1 : RevealFrame b
          { b with cell_states := setS b.cell_states r c CellState.REVEALED } :=
        ⟨rfl, rfl, rfl, rfl, rfl, rfl, rfl, rfl⟩
      by_cases hm : b.grid r c = MINE_VALUE
      · rw [if_pos hm]
        refine revealFrame_trans ?_ (reveal_all_mines_frame _).1
        exact ⟨rfl, rfl, rfl, rfl, rfl, rfl, rfl, rfl⟩
      · rw [if_neg hm]
        by_cases h0 : b.grid r c = 0
        · rw [if_pos h0]
          refine revealFrame_trans hb1 ?_
          refine foldl_rel RevealFrame revealFrame_refl
            (fun x y z => revealFrame_trans) _ (fun x od => ?_) _ _
          by_cases hgd : 0 ≤ (r : Int) + od.1 ∧ (r : Int) + od.1 < (x.rows : Int) ∧
              0 ≤ (c : Int) + od.2 ∧ (c : Int) + od.2 < (x.cols : Int) ∧
              x.cell_states ((r : Int) + od.1).toNat ((c : Int) + od.2).toNat =
                CellState.HIDDEN
          · rw [if_pos hgd]
            exact ih x _ _
          · rw [if_neg hgd]
            exact revealFrame_refl x
        · rw [if_neg h0]
          exact hb1

theorem revealFuel_chg : ∀ (f : Nat) (b : Board) (r c : Nat),
    ChgRev b (revealFuel f b r c) := by
  intro f
  induction f with
  | zero =>
    intro b r c
    exact chgRev_refl b
  | succ f ih =>
    intro b r c
    simp only [revealFuel]
    by_cases hg : b.game_over = true ∨ b.cell_states r c = CellState.REVEALED
    · rw [if_pos hg]
      exact chgRev_refl b
    · rw [if_neg hg]
      have hb1 : ChgRev b
          { b with cell_states := setS b.cell_states r c CellState.REVEALED } := by
        intro pr pc
        by_cases hpp : pr = r ∧ pc = c
        · right
          show setS b.cell_states r c CellState.REVEALED pr pc = _
          rw [hpp.1, hpp.2, setS_self]
        · left
          exact setS_ne _ _ _ _ _ _ hpp
      by_cases hm : b.grid r c = MINE_VALUE
      · rw [if_pos hm]
        refine chgRev_trans (chgRev_trans hb1 ?_) (reveal_all_mines_chg _)
        exact chgRev_refl _
      · rw [if_neg hm]
        by_cases h0 : b.grid r c = 0
        · rw [if_pos h0]
          refine chgRev_trans hb1 ?_
          refine foldl_rel ChgRev chgRev_refl (fun x y z => chgRev_trans) _
            (fun x od => ?_) _ _
          by_cases hgd : 0 ≤ (r : Int) + od.1 ∧ (r : Int) + od.1 < (x.rows : Int) ∧
              0 ≤ (c : Int) + od.2 ∧ (c : Int) + od.2 < (x.cols : Int) ∧
              x.cell_states ((r : Int) + od.1).toNat ((c : Int) + od.2).toNat =
                CellState.HIDDEN
          · rw [if_pos hgd]
            exact ih x _ _
          · rw [if_neg hgd]
            exact chgRev_refl x
        · rw [if_neg h0]
          exact hb1

/-- When `reveal` is called on a cell that is not FLAGGED, every FLAGGED
cell stays FLAGGED (the cascade only ever recurses into HIDDEN cells,
and `_reveal_all_mines` skips flagged cells). -/
theorem revealFuel_flagPres : ∀ (f : Nat) (b : Board) (r c : Nat),
    b.cell_states r c ≠ CellState.FLAGGED →
    ∀ pr pc, b.cell_states pr pc = CellState.FLAGGED →
      (revealFuel f b r c).cell_states pr pc = CellState.FLAGGED := by
  intro f
  induction f with
  | zero =>
    intro b r c _ pr pc hf
    exact hf
  | succ f ih =>
    intro b r c hnf pr pc hf
    simp only [revealFuel]
    by_cases hg : b.game_over = true ∨ b.cell_states r c = CellState.REVEALED
    · rw [if_pos hg]
      exact hf
    · rw [if_neg hg]
      have hpp : ¬(pr = r ∧ pc = c) := by
        intro hcc
        rw [hcc.1, hcc.2] at hf
        exact hnf hf
      have hb1f : ({ b with
          cell_states := setS b.cell_states r c CellState.REVEALED} : Board).cell_states
            pr pc = CellState.FLAGGED := by
        show setS b.cell_states r c CellState.REVEALED pr pc = _
        rw [setS_ne _ _ _ _ _ _ hpp]
        exact hf
      by_cases hm : b.grid r c = MINE_VALUE
      · rw [if_pos hm]
        rw [reveal_all_mines_states]
        rw [if_neg]
        · exact hb1f
        · intro hcc
          exact hcc.2.2.2 hb1f
      · rw [if_neg hm]
        by_cases h0 : b.grid r c = 0
        · rw [if_pos h0]
          refine foldl_rel
            (fun x y => ∀ qr qc, x.cell_states qr qc = CellState.FLAGGED →
              y.cell_states qr qc = CellState.FLAGGED)
            (fun x qr qc hq => hq)
            (fun x y z h1 h2 qr qc hq => h2 qr qc (h1 qr qc hq)) _
            (fun x od => ?_) _ _ pr pc hb1f
          intro qr qc hq
          by_cases hgd : 0 ≤ (r : Int) + od.1 ∧ (r : Int) + od.1 < (x.rows : Int) ∧
              0 ≤ (c : Int) + od.2 ∧ (c : Int) + od.2 < (x.cols : Int) ∧
              x.cell_states ((r : Int) + od.1).toNat ((c : Int) + od.2).toNat =
                CellState.HIDDEN
          · rw [if_pos hgd]
            refine ih x _ _ ?_ qr qc hq
            rw [hgd.2.2.2.2]
            intro hcc
            cases hcc
          · rw [if_neg hgd]
            exact hq
        · rw [if_neg h0]
          exact hb1f

theorem revealFuel_count_le (f : Nat) (b : Board) (r c : Nat) :
    nonRevealedCount (revealFuel f b r c) ≤ nonRevealedCount b :=
  nonRevealedCount_mono (revealFuel_frame f b r c).1 (revealFuel_frame f b r c).2.1
    (revealFuel_chg f b r c)

/-- One-step unfolding of the fuelled recursion. -/
theorem revealFuel_succ_def (f : Nat) (b : Board) (row col : Nat) :
    revealFuel (f + 1) b row col =
      if b.game_over = true ∨ b.cell_states row col = CellState.REVEALED then b
      else
        if b.grid row col = MINE_VALUE then
          reveal_all_mines
            { b with
              cell_states := setS b.cell_states row col CellState.REVEALED
              game_over := true }
        else if b.grid row col = 0 then
          neighborOffsets.foldl (fun acc od =>
            if 0 ≤ (row : Int) + od.1 ∧ (row : Int) + od.1 < (acc.rows : Int) ∧
                0 ≤ (col : Int) + od.2 ∧ (col : Int) + od.2 < (acc.cols : Int) ∧
                acc.cell_states ((row : Int) + od.1).toNat
                  ((col : Int) + od.2).toNat = CellState.HIDDEN then
              revealFuel f acc ((row : Int) + od.1).toNat ((col : Int) + od.2).toNat
            else acc)
            { b with cell_states := setS b.cell_states row col CellState.REVEALED }
        else { b with cell_states := setS b.cell_states row col CellState.REVEALED } := rfl

/-- Any fuel at least the number of unrevealed cells can be raised by one
without changing the result: the recursion never exhausts such a budget. -/
theorem revealFuel_stable_succ : ∀ (f : Nat) (b : Board) (r c : Nat),
    r < b.rows → c < b.cols → nonRevealedCount b ≤ f →
    revealFuel f b r c = revealFuel (f + 1) b r c := by
  intro f
  induction f with
  | zero =>
    intro b r c hr hc hcnt
    have hrev := nonRevealedCount_zero (Nat.le_zero.mp hcnt) hr hc
    rw [revealFuel_succ_def, if_pos (Or.inr hrev)]
    rfl
  | succ f ih =>
    intro b r c hr hc hcnt
    rw [revealFuel_succ_def f, revealFuel_succ_def (f + 1)]
    by_cases hg : b.game_over = true ∨ b.cell_states r c = CellState.REVEALED
    · rw [if_pos hg, if_pos hg]
    · rw [if_neg hg, if_neg hg]
      by_cases hm : b.grid r c = MINE_VALUE
      · rw [if_pos hm, if_pos hm]
      · rw [if_neg hm, if_neg hm]
        by_cases h0 : b.grid r c = 0
        · rw [if_pos h0, if_pos h0]
          have hb1cnt : nonRevealedCount
              { b with cell_states := setS b.cell_states r c CellState.REVEALED } ≤ f := by
            have := nonRevealedCount_setS_revealed b r c hr hc
              (fun hcc => hg (Or.inr hcc))
            omega
          have main : ∀ (os : List (Int × Int)) (acc : Board),
              acc.rows = b.rows → acc.cols = b.cols → nonRevealedCount acc ≤ f →
              os.foldl (fun acc od =>
                if 0 ≤ (r : Int) + od.1 ∧ (r : Int) + od.1 < (acc.rows : Int) ∧
                    0 ≤ (c : Int) + od.2 ∧ (c : Int) + od.2 < (acc.cols : Int) ∧
                    acc.cell_states ((r : Int) + od.1).toNat
                      ((c : Int) + od.2).toNat = CellState.HIDDEN then
                  revealFuel f acc ((r : Int) + od.1).toNat ((c : Int) + od.2).toNat
                else acc) acc =
              os.foldl (fun acc od =>
                if 0 ≤ (r : Int) + od.1 ∧ (r : Int) + od.1 < (acc.rows : Int) ∧
                    0 ≤ (c : Int) + od.2 ∧ (c : Int) + od.2 < (acc.cols : Int) ∧
                    acc.cell_states ((r : Int) + od.1).toNat
                      ((c : Int) + od.2).toNat = CellState.HIDDEN then
                  revealFuel (f + 1) acc ((r : Int) + od.1).toNat
                    ((c : Int) + od.2).toNat
                else acc) acc := by
            intro os
            induction os with
            | nil =>
              intro acc _ _ _
              rfl
            | cons od os iho =>
              intro acc hrows hcols hcnta
              rw [List.foldl_cons, List.foldl_cons]
              by_cases hgd : 0 ≤ (r : Int) + od.1 ∧ (r : Int) + od.1 < (acc.rows : Int) ∧
                  0 ≤ (c : Int) + od.2 ∧ (c : Int) + od.2 < (acc.cols : Int) ∧
                  acc.cell_states ((r : Int) + od.1).toNat
                    ((c : Int) + od.2).toNat = CellState.HIDDEN
              · rw [if_pos hgd, if_pos hgd]
                have hnrb : ((r : Int) + od.1).toNat < acc.rows := by omega
                have hncb : ((c : Int) + od.2).toNat < acc.cols := by omega
                have heq := ih acc ((r : Int) + od.1).toNat ((c : Int) + od.2).toNat
                  hnrb hncb hcnta
                rw [← heq]
                apply iho
                · rw [(revealFuel_frame f acc _ _).1, hrows]
                · rw [(revealFuel_frame f acc _ _).2.1, hcols]
                · exact le_trans (revealFuel_count_le f acc _ _) hcnta
              · rw [if_neg hgd, if_neg hgd]
                exact iho acc hrows hcols hcnta
          exact main neighborOffsets _ rfl rfl hb1cnt
        · rw [if_neg h0, if_neg h0]

theorem revealFuel_add_stable : ∀ (k f : Nat) (b : Board) (r c : Nat),
    r < b.rows → c < b.cols → nonRevealedCount b ≤ f →
    revealFuel (f + k) b r c = revealFuel f b r c := by
  intro k
  induction k with
  | zero =>
    intro f b r c _ _ _
    rfl
  | succ k ihk =>
    intro f b r c hr hc hcnt
    have h1 : f + (k + 1) = (f + k) + 1 := by omega
    rw [h1, ← revealFuel_stable_succ (f + k) b r c hr hc (le_trans hcnt (by omega))]
    exact ihk f b r c hr hc hcnt

theorem noMineAdjZero_transfer {b b' : Board} (hr : b'.rows = b.rows)
    (hc : b'.cols = b.cols) (hg : b'.grid = b.grid) (h : NoMineAdjZero b) :
    NoMineAdjZero b' := by
  intro r c hr' hc' h0 od hod h1 h2 h3 h4
  rw [hg]
  rw [hr] at hr' h2
  rw [hc] at hc' h4
  rw [hg] at h0
  exact h r c hr' hc' h0 od hod h1 h2 h3 h4

/-- Master lemma about one `reveal` call on a non-mine target of a board
with no mine adjacent to any zero cell and enough fuel: the target ends
REVEALED, the game does not end, and every cell this call newly reveals
that has a zero count has all its originally-HIDDEN in-range neighbours
revealed as well (the flood fill leaves no unprocessed frontier). -/
theorem revealFuel_closure : ∀ (f : Nat) (b : Board) (r c : Nat),
    nonRevealedCount b ≤ f → r < b.rows → c < b.cols →
    b.game_over = false → NoMineAdjZero b → b.grid r c ≠ MINE_VALUE →
    (revealFuel f b r c).cell_states r c = CellState.REVEALED ∧
    (revealFuel f b r c).game_over = false ∧
    (∀ pr pc, b.cell_states pr pc ≠ CellState.REVEALED →
      (revealFuel f b r c).cell_states pr pc = CellState.REVEALED →
      b.grid pr pc = 0 → pr < b.rows → pc < b.cols →
      ∀ od ∈ neighborOffsets,
        0 ≤ (pr : Int) + od.1 → (pr : Int) + od.1 < (b.rows : Int) →
        0 ≤ (pc : Int) + od.2 → (pc : Int) + od.2 < (b.cols : Int) →
        b.cell_states ((pr : Int) + od.1).toNat ((pc : Int) + od.2).toNat =
          CellState.HIDDEN →
        (revealFuel f b r c).cell_states ((pr : Int) + od.1).toNat
          ((pc : Int) + od.2).toNat = CellState.REVEALED) := by
  intro f
  induction f with
  | zero =>
    intro b r c hcnt hr hc hgo _ _
    have hrev := nonRevealedCount_zero (Nat.le_zero.mp hcnt) hr hc
    refine ⟨hrev, hgo, ?_⟩
    intro pr pc h1 h2 _ hpr hpc
    exact absurd (nonRevealedCount_zero (Nat.le_zero.mp hcnt) hpr hpc) h1
  | succ f ih =>
    intro b r c hcnt hr hc hgo hnmz hnm
    rw [revealFuel_succ_def]
    by_cases hrev : b.cell_states r c = CellState.REVEALED
    · rw [if_pos (Or.inr hrev)]
      refine ⟨hrev, hgo, ?_⟩
      intro pr pc h1 h2
      exact absurd h2 h1
    · rw [if_neg (by
        intro hcc
        rcases hcc with hcc | hcc
        · rw [hgo] at hcc
          cases hcc
        · exact hrev hcc)]
      rw [if_neg hnm]
      by_cases h0 : b.grid r c = 0
      · rw [if_pos h0]
        have hb1cnt : nonRevealedCount
            { b with cell_states := setS b.cell_states r c CellState.REVEALED } ≤ f := by
          have := nonRevealedCount_setS_revealed b r c hr hc hrev
          omega
        have hchg1 : ChgRev b
            { b with cell_states := setS b.cell_states r c CellState.REVEALED } := by
          intro pr pc
          by_cases hpp : pr = r ∧ pc = c
          · right
            show setS b.cell_states r c CellState.REVEALED pr pc = _
            rw [hpp.1, hpp.2, setS_self]
          · left
            exact setS_ne _ _ _ _ _ _ hpp
        have main : ∀ (os : List (Int × Int)), (∀ od ∈ os, od ∈ neighborOffsets) →
            ∀ (acc res : Board),
            res = os.foldl (fun acc od =>
              if 0 ≤ (r : Int) + od.1 ∧ (r : Int) + od.1 < (acc.rows : Int) ∧
                  0 ≤ (c : Int) + od.2 ∧ (c : Int) + od.2 < (acc.cols : Int) ∧
                  acc.cell_states ((r : Int) + od.1).toNat
                    ((c : Int) + od.2).toNat = CellState.HIDDEN then
                revealFuel f acc ((r : Int) + od.1).toNat ((c : Int) + od.2).toNat
              else acc) acc →
            acc.rows = b.rows → acc.cols = b.cols → acc.grid = b.grid →
            ChgRev b acc → acc.game_over = false → nonRevealedCount acc ≤ f →
            (res.rows = b.rows ∧ res.cols = b.cols ∧ res.grid = b.grid) ∧
            ChgRev acc res ∧
            res.game_over = false ∧
            nonRevealedCount res ≤ f ∧
            (∀ od ∈ os,
              0 ≤ (r : Int) + od.1 → (r : Int) + od.1 < (b.rows : Int) →
              0 ≤ (c : Int) + od.2 → (c : Int) + od.2 < (b.cols : Int) →
              b.cell_states ((r : Int) + od.1).toNat ((c : Int) + od.2).toNat =
                CellState.HIDDEN →
              res.cell_states ((r : Int) + od.1).toNat ((c : Int) + od.2).toNat =
                CellState.REVEALED) ∧
            (∀ pr pc, acc.cell_states pr pc ≠ CellState.REVEALED →
              res.cell_states pr pc = CellState.REVEALED →
              b.grid pr pc = 0 → pr < b.rows → pc < b.cols →
              ∀ od ∈ neighborOffsets,
                0 ≤ (pr : Int) + od.1 → (pr : Int) + od.1 < (b.rows : Int) →
                0 ≤ (pc : Int) + od.2 → (pc : Int) + od.2 < (b.cols : Int) →
                b.cell_states ((pr : Int) + od.1).toNat ((pc : Int) + od.2).toNat =
                  CellState.HIDDEN →
                res.cell_states ((pr : Int) + od.1).toNat ((pc : Int) + od.2).toNat =
                  CellState.REVEALED) := by
          intro os
          induction os with
          | nil =>
            intro _ acc res hres hrows hcols hgrid hchg hgoa hcnta
            rw [List.foldl_nil] at hres
            subst hres
            refine ⟨⟨hrows, hcols, hgrid⟩, chgRev_refl _, hgoa, hcnta, ?_, ?_⟩
            · intro od hod
              cases hod
            · intro pr pc h1 h2
              exact absurd h2 h1
          | cons od os iho =>
            intro hos acc res hres hrows hcols hgrid hchg hgoa hcnta
            rw [List.foldl_cons] at hres
            have hodmem : od ∈ neighborOffsets := hos od (List.mem_cons_self _ _)
            have hostail : ∀ od' ∈ os, od' ∈ neighborOffsets :=
              fun od' hod' => hos od' (List.mem_cons_of_mem _ hod')
            by_cases hgd : 0 ≤ (r : Int) + od.1 ∧ (r : Int) + od.1 < (acc.rows : Int) ∧
                0 ≤ (c : Int) + od.2 ∧ (c : Int) + od.2 < (acc.cols : Int) ∧
                acc.cell_states ((r : Int) + od.1).toNat
                  ((c : Int) + od.2).toNat = CellState.HIDDEN
            · rw [if_pos hgd] at hres
              -- the guarded recursive call on the neighbour
              have hnrb : ((r : Int) + od.1).toNat < acc.rows := by omega
              have hncb : ((c : Int) + od.2).toNat < acc.cols := by omega
              have htgtnm : acc.grid ((r : Int) + od.1).toNat
                  ((c : Int) + od.2).toNat ≠ MINE_VALUE := by
                rw [hgrid]
                refine hnmz r c hr hc h0 od hodmem hgd.1 ?_
                  hgd.2.2.1 ?_
                · rw [← hrows]
                  exact hgd.2.1
                · rw [← hcols]
                  exact hgd.2.2.2.1
              have hsub := ih acc ((r : Int) + od.1).toNat ((c : Int) + od.2).toNat
                hcnta hnrb hncb hgoa
                (noMineAdjZero_transfer hrows hcols hgrid hnmz) htgtnm
              have hsubchg := revealFuel_chg f acc ((r : Int) + od.1).toNat
                ((c : Int) + od.2).toNat
              have hsubframe := revealFuel_frame f acc ((r : Int) + od.1).toNat
                ((c : Int) + od.2).toNat
              have htail := iho hostail _ res hres
                (hsubframe.1.trans hrows) (hsubframe.2.1.trans hcols)
                (hsubframe.2.2.1.trans hgrid)
                (chgRev_trans hchg hsubchg) hsub.2.1
                (le_trans (revealFuel_count_le _ _ _ _) hcnta)
              refine ⟨htail.1, chgRev_trans hsubchg htail.2.1, htail.2.2.1,
                htail.2.2.2.1, ?_, ?_⟩
              · intro od' hod'
                rcases List.mem_cons.mp hod' with heq | hod'
                · subst heq
                  intro _ _ _ _ _
                  refine chgRev_revealed htail.2.1 hsub.1
                · exact htail.2.2.2.2.1 od' hod'
              · intro pr pc h1 h2 hgz hpr hpc od' hod' hb1 hb2 hb3 hb4 hhid
                by_cases hmid : (revealFuel f acc ((r : Int) + od.1).toNat
                    ((c : Int) + od.2).toNat).cell_states pr pc = CellState.REVEALED
                · -- newly revealed by the head sub-call: use its closure
                  have hq : acc.cell_states ((pr : Int) + od'.1).toNat
                      ((pc : Int) + od'.2).toNat = CellState.HIDDEN ∨
                      acc.cell_states ((pr : Int) + od'.1).toNat
                        ((pc : Int) + od'.2).toNat = CellState.REVEALED := by
                    rcases hchg ((pr : Int) + od'.1).toNat ((pc : Int) + od'.2).toNat
                      with he | he
                    · left
                      rw [he]
                      exact hhid
                    · right
                      exact he
                  rcases hq with hq | hq
                  · have := hsub.2.2 pr pc h1 hmid (by rw [hgrid]; exact hgz)
                      (by rw [hrows]; exact hpr) (by rw [hcols]; exact hpc)
                      od' hod' hb1 (by rw [hrows]; exact hb2) hb3
                      (by rw [hcols]; exact hb4) hq
                    exact chgRev_revealed htail.2.1 this
                  · exact chgRev_revealed htail.2.1 (chgRev_revealed hsubchg hq)
                · -- newly revealed later in the fold: use the tail closure
                  exact htail.2.2.2.2.2 pr pc hmid h2 hgz hpr hpc od' hod'
                    hb1 hb2 hb3 hb4 hhid
            · rw [if_neg hgd] at hres
              have htail := iho hostail acc res hres hrows hcols hgrid hchg hgoa hcnta
              refine ⟨htail.1, htail.2.1, htail.2.2.1, htail.2.2.2.1, ?_,
                htail.2.2.2.2.2⟩
              intro od' hod'
              rcases List.mem_cons.mp hod' with heq | hod'
              · subst heq
                intro hb1 hb2 hb3 hb4 hhid
                -- the guard failed although the neighbour was HIDDEN in b:
                -- it must already be REVEALED in acc
                have hbounds : 0 ≤ (r : Int) + od'.1 ∧
                    (r : Int) + od'.1 < (acc.rows : Int) ∧
                    0 ≤ (c : Int) + od'.2 ∧ (c : Int) + od'.2 < (acc.cols : Int) := by
                  rw [hrows, hcols]
                  exact ⟨hb1, hb2, hb3, hb4⟩
                have hacc : acc.cell_states ((r : Int) + od'.1).toNat
                    ((c : Int) + od'.2).toNat = CellState.REVEALED := by
                  rcases hchg ((r : Int) + od'.1).toNat ((c : Int) + od'.2).toNat
                    with he | he
                  · exfalso
                    apply hgd
                    refine ⟨hbounds.1, hbounds.2.1, hbounds.2.2.1, hbounds.2.2.2, ?_⟩
                    rw [he]
                    exact hhid
                  · exact he
                exact chgRev_revealed htail.2.1 hacc
              · exact htail.2.2.2.2.1 od' hod'
        have hmain := main neighborOffsets (fun od hod => hod)
          { b with cell_states := setS b.cell_states r c CellState.REVEALED } _
          rfl rfl rfl rfl hchg1 hgo hb1cnt
        refine ⟨?_, hmain.2.2.1, ?_⟩
        · refine chgRev_revealed hmain.2.1 ?_
          show setS b.cell_states r c CellState.REVEALED r c = _
          exact setS_self _ _ _ _
        · intro pr pc h1 h2 hgz hpr hpc od hod hb1 hb2 hb3 hb4 hhid
          by_cases hpp : pr = r ∧ pc = c
          · -- the target cell itself: every HIDDEN neighbour was processed
            obtain ⟨hp1, hp2⟩ := hpp
            subst hp1
            subst hp2
            exact hmain.2.2.2.2.1 od hod hb1 hb2 hb3 hb4 hhid
          · have hb1state : setS b.cell_states r c CellState.REVEALED pr pc ≠
                CellState.REVEALED := by
              rw [setS_ne _ _ _ _ _ _ hpp]
              exact h1
            exact hmain.2.2.2.2.2 pr pc hb1state h2 hgz hpr hpc od hod
              hb1 hb2 hb3 hb4 hhid
      · rw [if_neg h0]
        refine ⟨?_, hgo, ?_⟩
        · show setS b.cell_states r c CellState.REVEALED r c = _
          exact setS_self _ _ _ _
        · intro pr pc h1 h2 hgz
          exfalso
          by_cases hpp : pr = r ∧ pc = c
          · rw [hpp.1, hpp.2] at hgz
            exact h0 hgz
          · apply h1
            show _ = CellState.REVEALED
            rw [← h2]
            show _ = setS b.cell_states r c CellState.REVEALED pr pc
            rw [setS_ne _ _ _ _ _ _ hpp]

theorem reach_inbounds {b : Board} {r0 c0 : Nat} (hr0 : r0 < b.rows)
    (hc0 : c0 < b.cols) {pr pc : Nat} (h : Reach b r0 c0 pr pc) :
    pr < b.rows ∧ pc < b.cols := by
  induction h with
  | base => exact ⟨hr0, hc0⟩
  | step r c od nr nc _ _ _ _ _ _ _ _ hnrb hncb _ => exact ⟨hnrb, hncb⟩

theorem reach_not_mine {b : Board} {r0 c0 : Nat} (hnmz : NoMineAdjZero b)
    (h0 : b.grid r0 c0 = 0) {pr pc : Nat} (h : Reach b r0 c0 pr pc) :
    b.grid pr pc ≠ MINE_VALUE := by
  induction h with
  | base =>
    rw [h0]
    norm_num [MINE_VALUE]
  | step r c od nr nc hre hr hc hz hh hod hnr hnc hnrb hncb hhid =>
    have h1 : 0 ≤ (r : Int) + od.1 := by omega
    have h2 : (r : Int) + od.1 < (b.rows : Int) := by omega
    have h3 : 0 ≤ (c : Int) + od.2 := by omega
    have h4 : (c : Int) + od.2 < (b.cols : Int) := by omega
    have hmine := hnmz r c hr hc hz od hod h1 h2 h3 h4
    have hnr' : ((r : Int) + od.1).toNat = nr := by omega
    have hnc' : ((c : Int) + od.2).toNat = nc := by omega
    rw [hnr', hnc'] at hmine
    exact hmine

/-- Soundness of the flood fill: starting from any intermediate state
whose changes (relative to the original board `b`) all lie in the
reachable set, a `reveal` call on a reachable cell only ever changes
cells in the reachable set. -/
theorem revealFuel_sound (b : Board) (r0 c0 : Nat) (hr0 : r0 < b.rows)
    (hc0 : c0 < b.cols) (h00 : b.grid r0 c0 = 0) (hnmz : NoMineAdjZero b) :
    ∀ (f : Nat) (b' : Board) (r c : Nat),
      b'.rows = b.rows → b'.cols = b.cols → b'.grid = b.grid →
      ChgRev b b' →
      (∀ pr pc, b'.cell_states pr pc ≠ b.cell_states pr pc → Reach b r0 c0 pr pc) →
      Reach b r0 c0 r c →
      (b.cell_states r c = CellState.HIDDEN ∨ (r = r0 ∧ c = c0)) →
      ∀ pr pc, (revealFuel f b' r c).cell_states pr pc ≠ b.cell_states pr pc →
        Reach b r0 c0 pr pc := by
  intro f
  induction f with
  | zero =>
    intro b' r c _ _ _ _ hch _ _ pr pc hne
    exact hch pr pc hne
  | succ f ih =>
    intro b' r c hrows hcols hgrid hchg hch hre hstart pr pc hne
    rw [revealFuel_succ_def] at hne
    by_cases hg : b'.game_over = true ∨ b'.cell_states r c = CellState.REVEALED
    · rw [if_pos hg] at hne
      exact hch pr pc hne
    · rw [if_neg hg] at hne
      have hrc_in := reach_inbounds hr0 hc0 hre
      have hch1 : ∀ qr qc,
          setS b'.cell_states r c CellState.REVEALED qr qc ≠ b.cell_states qr qc →
          Reach b r0 c0 qr qc := by
        intro qr qc hq
        by_cases hpp : qr = r ∧ qc = c
        · rw [hpp.1, hpp.2]
          exact hre
        · rw [setS_ne _ _ _ _ _ _ hpp] at hq
          exact hch qr qc hq
      have hmfalse : ¬(b'.grid r c = MINE_VALUE) := by
        rw [hgrid]
        exact reach_not_mine hnmz h00 hre
      rw [if_neg hmfalse] at hne
      by_cases h0 : b'.grid r c = 0
      · rw [if_pos h0] at hne
        have hz : b.grid r c = 0 := by
          rw [← hgrid]
          exact h0
        have main : ∀ (os : List (Int × Int)), (∀ od ∈ os, od ∈ neighborOffsets) →
            ∀ (acc : Board),
            acc.rows = b.rows → acc.cols = b.cols → acc.grid = b.grid →
            ChgRev b acc →
            (∀ qr qc, acc.cell_states qr qc ≠ b.cell_states qr qc →
              Reach b r0 c0 qr qc) →
            ∀ qr qc, (os.foldl (fun acc od =>
              if 0 ≤ (r : Int) + od.1 ∧ (r : Int) + od.1 < (acc.rows : Int) ∧
                  0 ≤ (c : Int) + od.2 ∧ (c : Int) + od.2 < (acc.cols : Int) ∧
                  acc.cell_states ((r : Int) + od.1).toNat
                    ((c : Int) + od.2).toNat = CellState.HIDDEN then
                revealFuel f acc ((r : Int) + od.1).toNat ((c : Int) + od.2).toNat
              else acc) acc).cell_states qr qc ≠ b.cell_states qr qc →
              Reach b r0 c0 qr qc := by
          intro os
          induction os with
          | nil =>
            intro _ acc _ _ _ _ hcha qr qc hq
            rw [List.foldl_nil] at hq
            exact hcha qr qc hq
          | cons od os iho =>
            intro hos acc harows hacols hagrid hachg hcha qr qc hq
            rw [List.foldl_cons] at hq
            have hodmem : od ∈ neighborOffsets := hos od (List.mem_cons_self _ _)
            have hostail : ∀ od' ∈ os, od' ∈ neighborOffsets :=
              fun od' hod' => hos od' (List.mem_cons_of_mem _ hod')
            by_cases hgd : 0 ≤ (r : Int) + od.1 ∧ (r : Int) + od.1 < (acc.rows : Int) ∧
                0 ≤ (c : Int) + od.2 ∧ (c : Int) + od.2 < (acc.cols : Int) ∧
                acc.cell_states ((r : Int) + od.1).toNat
                  ((c : Int) + od.2).toNat = CellState.HIDDEN
            · rw [if_pos hgd] at hq
              have hidb : b.cell_states ((r : Int) + od.1).toNat
                  ((c : Int) + od.2).toNat = CellState.HIDDEN :=
                chgRev_hidden hachg hgd.2.2.2.2
              have hreq : Reach b r0 c0 ((r : Int) + od.1).toNat
                  ((c : Int) + od.2).toNat := by
                refine Reach.step r c od _ _ hre hrc_in.1 hrc_in.2 hz hstart hodmem
                  ?_ ?_ ?_ ?_ hidb
                · omega
                · omega
                · have := hgd.2.1
                  rw [harows] at this
                  omega
                · have := hgd.2.2.2.1
                  rw [hacols] at this
                  omega
              have hsubframe := revealFuel_frame f acc ((r : Int) + od.1).toNat
                ((c : Int) + od.2).toNat
              have hsubsound := ih acc ((r : Int) + od.1).toNat
                ((c : Int) + od.2).toNat harows hacols hagrid hachg hcha hreq
                (Or.inl hidb)
              exact iho hostail _ (hsubframe.1.trans harows)
                (hsubframe.2.1.trans hacols) (hsubframe.2.2.1.trans hagrid)
                (chgRev_trans hachg (revealFuel_chg f acc _ _))
                hsubsound qr qc hq
            · rw [if_neg hgd] at hq
              exact iho hostail acc harows hacols hagrid hachg hcha qr qc hq
        refine main neighborOffsets (fun od hod => hod)
          { b' with cell_states := setS b'.cell_states r c CellState.REVEALED }
          hrows hcols hgrid ?_ hch1 pr pc hne
        refine chgRev_trans hchg ?_
        intro qr qc
        by_cases hpp : qr = r ∧ qc = c
        · right
          show setS b'.cell_states r c CellState.REVEALED qr qc = _
          rw [hpp.1, hpp.2, setS_self]
        · left
          exact setS_ne _ _ _ _ _ _ hpp
      · rw [if_neg h0] at hne
        exact hch1 pr pc hne

/-! ### Offset loops versus neighbourhood sets -/

theorem zoneOffsets_spec :
    ∀ od ∈ zoneOffsets, od.1.natAbs ≤ 1 ∧ od.2.natAbs ≤ 1 := by decide

theorem mem_zoneOffsets {od : Int × Int} (h1 : od.1.natAbs ≤ 1)
    (h2 : od.2.natAbs ≤ 1) : od ∈ zoneOffsets := by
  obtain ⟨a, b⟩ := od
  simp only [zoneOffsets, List.mem_cons, List.not_mem_nil, or_false,
    Prod.mk.injEq] at *
  omega

/-- Membership in the safe zone built by `_place_mines`: the in-range
cells whose row and column are within one of the first click. -/
theorem mem_safeZone {b : Board} {fr fc : Nat} {p : Nat × Nat} :
    p ∈ safeZone b fr fc ↔
      p.1 < b.rows ∧ p.2 < b.cols ∧
      ((p.1 : Int) - (fr : Int)).natAbs ≤ 1 ∧
      ((p.2 : Int) - (fc : Int)).natAbs ≤ 1 := by
  obtain ⟨p1, p2⟩ := p
  unfold safeZone
  rw [List.mem_toFinset, List.mem_filterMap]
  constructor
  · rintro ⟨od, hod, hsome⟩
    dsimp only at hsome
    by_cases hcond : 0 ≤ (fr : Int) + od.1 ∧ (fr : Int) + od.1 < (b.rows : Int) ∧
        0 ≤ (fc : Int) + od.2 ∧ (fc : Int) + od.2 < (b.cols : Int)
    · rw [if_pos hcond] at hsome
      have hp := Option.some.inj hsome
      have hb1 := congrArg Prod.fst hp
      have hb2 := congrArg Prod.snd hp
      dsimp only at hb1 hb2
      have hbo := zoneOffsets_spec od hod
      refine ⟨?_, ?_, ?_, ?_⟩ <;> omega
    · rw [if_neg hcond] at hsome
      cases hsome
  · rintro ⟨h1, h2, h3, h4⟩
    refine ⟨((p1 : Int) - (fr : Int), (p2 : Int) - (fc : Int)), mem_zoneOffsets h3 h4, ?_⟩
    dsimp only
    rw [if_pos (by constructor <;> [omega; (constructor <;> [omega; (constructor <;> omega)])])]
    have e1 : ((fr : Int) + ((p1 : Int) - (fr : Int))).toNat = p1 := by omega
    have e2 : ((fc : Int) + ((p2 : Int) - (fc : Int))).toNat = p2 := by omega
    rw [e1, e2]

theorem neighborOffsets_nodup : neighborOffsets.Nodup := by decide

/-- The inner counting loop of `_calculate_adjacent_mines` counts exactly
the set of in-range mine cells adjacent to `(r, c)`. -/
theorem adjMineCount_eq_card (b : Board) (r c : Nat) :
    adjMineCount b.grid b.rows b.cols r c = (mineNeighborSet b r c).card := by
  classical
  have hlen : ∀ (os : List (Int × Int)),
      (os.filterMap (fun od =>
        if 0 ≤ (r : Int) + od.1 ∧ (r : Int) + od.1 < (b.rows : Int) ∧
            0 ≤ (c : Int) + od.2 ∧ (c : Int) + od.2 < (b.cols : Int) ∧
            b.grid ((r : Int) + od.1).toNat ((c : Int) + od.2).toNat = MINE_VALUE then
          some (((r : Int) + od.1).toNat, ((c : Int) + od.2).toNat)
        else none)).length =
      os.countP (fun od =>
        decide (0 ≤ (r : Int) + od.1 ∧ (r : Int) + od.1 < (b.rows : Int) ∧
          0 ≤ (c : Int) + od.2 ∧ (c : Int) + od.2 < (b.cols : Int) ∧
          b.grid ((r : Int) + od.1).toNat ((c : Int) + od.2).toNat = MINE_VALUE)) := by
    intro os
    induction os with
    | nil => rfl
    | cons od os iho =>
      rw [List.filterMap_cons, List.countP_cons]
      by_cases hcond : 0 ≤ (r : Int) + od.1 ∧ (r : Int) + od.1 < (b.rows : Int) ∧
          0 ≤ (c : Int) + od.2 ∧ (c : Int) + od.2 < (b.cols : Int) ∧
          b.grid ((r : Int) + od.1).toNat ((c : Int) + od.2).toNat = MINE_VALUE
      · rw [if_pos hcond]
        have hone : (if (fun od' =>
            decide (0 ≤ (r : Int) + od'.1 ∧ (r : Int) + od'.1 < (b.rows : Int) ∧
              0 ≤ (c : Int) + od'.2 ∧ (c : Int) + od'.2 < (b.cols : Int) ∧
              b.grid ((r : Int) + od'.1).toNat ((c : Int) + od'.2).toNat = MINE_VALUE))
            od then 1 else 0) = 1 := by
          simp only [decide_eq_true_eq]
          rw [if_pos hcond]
        rw [hone]
        simp only [List.length_cons, iho]
      · rw [if_neg hcond]
        have hzero : (if (fun od' =>
            decide (0 ≤ (r : Int) + od'.1 ∧ (r : Int) + od'.1 < (b.rows : Int) ∧
              0 ≤ (c : Int) + od'.2 ∧ (c : Int) + od'.2 < (b.cols : Int) ∧
              b.grid ((r : Int) + od'.1).toNat ((c : Int) + od'.2).toNat = MINE_VALUE))
            od then 1 else 0) = 0 := by
          simp only [decide_eq_true_eq]
          rw [if_neg hcond]
        rw [hzero, iho, Nat.add_zero]
  have hnodup : (neighborOffsets.filterMap (fun od =>
      if 0 ≤ (r : Int) + od.1 ∧ (r : Int) + od.1 < (b.rows : Int) ∧
          0 ≤ (c : Int) + od.2 ∧ (c : Int) + od.2 < (b.cols : Int) ∧
          b.grid ((r : Int) + od.1).toNat ((c : Int) + od.2).toNat = MINE_VALUE then
        some (((r : Int) + od.1).toNat, ((c : Int) + od.2).toNat)
      else none)).Nodup := by
    refine neighborOffsets_nodup.filterMap ?_
    intro a a' q hq hq'
    by_cases hca : 0 ≤ (r : Int) + a.1 ∧ (r : Int) + a.1 < (b.rows : Int) ∧
        0 ≤ (c : Int) + a.2 ∧ (c : Int) + a.2 < (b.cols : Int) ∧
        b.grid ((r : Int) + a.1).toNat ((c : Int) + a.2).toNat = MINE_VALUE
    · rw [if_pos hca] at hq
      by_cases hca' : 0 ≤ (r : Int) + a'.1 ∧ (r : Int) + a'.1 < (b.rows : Int) ∧
          0 ≤ (c : Int) + a'.2 ∧ (c : Int) + a'.2 < (b.cols : Int) ∧
          b.grid ((r : Int) + a'.1).toNat ((c : Int) + a'.2).toNat = MINE_VALUE
      · rw [if_pos hca'] at hq'
        have h1 := Option.mem_some_iff.mp hq
        have h2 := Option.mem_some_iff.mp hq'
        rw [← h2] at h1
        have e1 := congrArg Prod.fst h1
        have e2 := congrArg Prod.snd h1
        dsimp only at e1 e2
        obtain ⟨a1, a2⟩ := a
        obtain ⟨a1', a2'⟩ := a'
        simp only [Prod.mk.injEq]
        constructor <;> omega
      · rw [if_neg hca'] at hq'
        cases hq'
    · rw [if_neg hca] at hq
      cases hq
  have hset : (neighborOffsets.filterMap (fun od =>
      if 0 ≤ (r : Int) + od.1 ∧ (r : Int) + od.1 < (b.rows : Int) ∧
          0 ≤ (c : Int) + od.2 ∧ (c : Int) + od.2 < (b.cols : Int) ∧
          b.grid ((r : Int) + od.1).toNat ((c : Int) + od.2).toNat = MINE_VALUE then
        some (((r : Int) + od.1).toNat, ((c : Int) + od.2).toNat)
      else none)).toFinset = mineNeighborSet b r c := by
    apply Finset.ext
    intro p
    obtain ⟨p1, p2⟩ := p
    rw [List.mem_toFinset, List.mem_filterMap]
    unfold mineNeighborSet
    rw [Finset.mem_filter, Finset.mem_product, Finset.mem_range, Finset.mem_range]
    constructor
    · rintro ⟨od, hod, hsome⟩
      by_cases hcond : 0 ≤ (r : Int) + od.1 ∧ (r : Int) + od.1 < (b.rows : Int) ∧
          0 ≤ (c : Int) + od.2 ∧ (c : Int) + od.2 < (b.cols : Int) ∧
          b.grid ((r : Int) + od.1).toNat ((c : Int) + od.2).toNat = MINE_VALUE
      · rw [if_pos hcond] at hsome
        have hp := Option.some.inj hsome
        have hb1 := congrArg Prod.fst hp
        have hb2 := congrArg Prod.snd hp
        dsimp only at hb1 hb2
        have hbo := neighborOffsets_spec od hod
        refine ⟨⟨by omega, by omega⟩, ?_, by omega, by omega, ?_⟩
        · intro hpe
          have he1 := congrArg Prod.fst hpe
          have he2 := congrArg Prod.snd hpe
          dsimp only at he1 he2
          exact hbo.1 ⟨by omega, by omega⟩
        · rw [← hb1, ← hb2]
          exact hcond.2.2.2.2
      · rw [if_neg hcond] at hsome
        cases hsome
    · rintro ⟨⟨h1, h2⟩, hne, h3, h4, hmine⟩
      refine ⟨((p1 : Int) - (r : Int), (p2 : Int) - (c : Int)), ?_, ?_⟩
      · refine mem_neighborOffsets ?_ h3 h4
        intro hz
        apply hne
        have e1 : p1 = r := by
          have := hz.1
          dsimp only at this
          omega
        have e2 : p2 = c := by
          have := hz.2
          dsimp only at this
          omega
        rw [e1, e2]
      · have e1 : ((r : Int) + ((p1 : Int) - (r : Int))).toNat = p1 := by omega
        have e2 : ((c : Int) + ((p2 : Int) - (c : Int))).toNat = p2 := by omega
        rw [if_pos]
        · rw [e1, e2]
        · rw [e1, e2]
          refine ⟨by omega, by omega, by omega, by omega, hmine⟩
  rw [← hset, List.toFinset_card_of_nodup hnodup]
  unfold adjMineCount
  rw [hlen neighborOffsets]

/-- On a consistently mined board, a zero-count cell has no in-range mine
neighbour. -/
theorem minedConsistent_noMineAdjZero {b : Board} (h : MinedConsistent b) :
    NoMineAdjZero b := by
  intro r c hr hc h0 od hod h1 h2 h3 h4
  intro hmine
  have hnm : b.grid r c ≠ MINE_VALUE := by
    rw [h0]
    norm_num [MINE_VALUE]
  have hcard := h r hr c hc hnm
  rw [h0] at hcard
  have hzero : (mineNeighborSet b r c).card = 0 := by omega
  have hempty := Finset.card_eq_zero.mp hzero
  have hbo := neighborOffsets_spec od hod
  have hmem : (((r : Int) + od.1).toNat, ((c : Int) + od.2).toNat) ∈
      mineNeighborSet b r c := by
    unfold mineNeighborSet
    rw [Finset.mem_filter, Finset.mem_product, Finset.mem_range, Finset.mem_range]
    refine ⟨⟨by omega, by omega⟩, ?_, by omega, by omega, hmine⟩
    intro hpe
    have he1 := congrArg Prod.fst hpe
    have he2 := congrArg Prod.snd hpe
    dsimp only at he1 he2
    exact hbo.1 ⟨by omega, by omega⟩
  rw [hempty] at hmem
  cases hmem

/-! ### Remaining helpers -/

theorem board_eq_of_fields (x y : Board) (h1 : x.rows = y.rows)
    (h2 : x.cols = y.cols) (h3 : x.mines = y.mines) (h4 : x.grid = y.grid)
    (h5 : x.cell_states = y.cell_states) (h6 : x.flags_placed = y.flags_placed)
    (h7 : x.mines_location = y.mines_location) (h8 : x.first_click = y.first_click)
    (h9 : x.game_over = y.game_over) (h10 : x.game_won = y.game_won) : x = y := by
  cases x
  cases y
  simp only [Board.mk.injEq]
  exact ⟨h1, h2, h3, h4, h5, h6, h7, h8, h9, h10⟩

theorem countP_or_split {α : Type} (l : List α) (p q pr : α → Bool)
    (hpq : ∀ x ∈ l, (pr x = true ↔ (p x = true ∨ q x = true)))
    (hdisj : ∀ x ∈ l, ¬(p x = true ∧ q x = true)) :
    l.countP pr = l.countP p + l.countP q := by
  induction l with
  | nil => rfl
  | cons x l ih =>
    rw [List.countP_cons, List.countP_cons, List.countP_cons]
    have hrec := ih (fun y hy => hpq y (List.mem_cons_of_mem _ hy))
      (fun y hy => hdisj y (List.mem_cons_of_mem _ hy))
    have hx := hpq x (List.mem_cons_self _ _)
    have hdx := hdisj x (List.mem_cons_self _ _)
    by_cases hp : p x = true
    · have hq : ¬(q x = true) := fun hq => hdx ⟨hp, hq⟩
      have hr : pr x = true := hx.mpr (Or.inl hp)
      rw [if_pos hp, if_pos hr, if_neg hq]
      omega
    · by_cases hq : q x = true
      · have hr : pr x = true := hx.mpr (Or.inr hq)
        rw [if_neg hp, if_pos hr, if_pos hq]
        omega
      · have hr : ¬(pr x = true) := fun hr => (hx.mp hr).elim hp hq
        rw [if_neg hp, if_neg hr, if_neg hq]
        omega

theorem check_win_flag_keep (b : Board) {r c : Nat}
    (h : b.cell_states r c = CellState.FLAGGED) :
    (check_win b).cell_states r c = CellState.FLAGGED := by
  by_cases hcond : (revealedNonMineCount b : Int) =
      (b.rows : Int) * (b.cols : Int) - (b.mines : Int)
  · rw [(check_win_win_spec b hcond).2.2.1 r c]
    rw [if_neg]
    · exact h
    · intro hcc
      rw [h] at hcc
      cases hcc.2.2.2
  · rw [check_win_no_win b hcond]
    exact h

/-! ### Claim C4: cascade characterisation -/

/-- C4 (amended): on a mined board with the game running, calling `reveal`
on an in-range HIDDEN zero-count cell reveals exactly the cells reachable
from it through HIDDEN zero-count cells (the sub-region of the maximal
zero region that is not blocked by FLAGGED or already-REVEALED cells,
plus its HIDDEN bordering cells); every other cell — in particular every
FLAGGED and every already-REVEALED cell — keeps its exact state. -/
theorem reveal_cascade_reach_spec (b : Board) (r0 c0 : Nat)
    (hr : r0 < b.rows) (hc : c0 < b.cols) (hgo : b.game_over = false)
    (hmc : MinedConsistent b) (h0 : b.grid r0 c0 = 0)
    (hh : b.cell_states r0 c0 = CellState.HIDDEN) :
    ∀ pr pc,
      (Reach b r0 c0 pr pc →
        (reveal b r0 c0).cell_states pr pc = CellState.REVEALED) ∧
      (¬ Reach b r0 c0 pr pc →
        (reveal b r0 c0).cell_states pr pc = b.cell_states pr pc) := by
  have hnmz := minedConsistent_noMineAdjZero hmc
  have hnm : b.grid r0 c0 ≠ MINE_VALUE := by
    rw [h0]
    norm_num [MINE_VALUE]
  have hcnt : nonRevealedCount b ≤ b.rows * b.cols := nonRevealedCount_le b
  have hclosure := revealFuel_closure (b.rows * b.cols) b r0 c0 hcnt hr hc hgo hnmz hnm
  have hcomp : ∀ pr pc, Reach b r0 c0 pr pc →
      (revealFuel (b.rows * b.cols) b r0 c0).cell_states pr pc =
        CellState.REVEALED := by
    intro pr pc hreach
    induction hreach with
    | base => exact hclosure.1
    | step r c od nr nc hre hrr hcc hz hst hod hnr hnc hnrb hncb hhid ihre =>
      have hpne : b.cell_states r c ≠ CellState.REVEALED := by
        rcases hst with hst | hst
        · rw [hst]
          intro hcc2
          cases hcc2
        · rw [hst.1, hst.2, hh]
          intro hcc2
          cases hcc2
      have e1 : ((r : Int) + od.1).toNat = nr := by omega
      have e2 : ((c : Int) + od.2).toNat = nc := by omega
      have hthis := hclosure.2.2 r c hpne ihre hz hrr hcc od hod
        (by omega) (by omega) (by omega) (by omega)
        (by rw [e1, e2]; exact hhid)
      rw [e1, e2] at hthis
      exact hthis
  have hsound := revealFuel_sound b r0 c0 hr hc h0 hnmz (b.rows * b.cols) b r0 c0
    rfl rfl rfl (chgRev_refl b) (fun pr pc hq => absurd rfl hq) Reach.base
    (Or.inr ⟨rfl, rfl⟩)
  intro pr pc
  constructor
  · exact hcomp pr pc
  · intro hnreach
    by_contra hne
    exact hnreach (hsound pr pc hne)

/-! ### Claim C9: the flood fill never exhausts a `rows*cols` depth budget -/

/-- C9: the recursion of `reveal` terminates within a depth budget equal
to the number of not-yet-revealed cells: any fuel of at least
`nonRevealedCount b` computes the same board as `reveal` (which runs with
fuel `rows * cols`), and `nonRevealedCount b` is itself at most
`rows * cols`, so the recursion depth and total work are bounded by the
grid size. -/
theorem reveal_depth_bounded (b : Board) (r c : Nat) (f : Nat)
    (hr : r < b.rows) (hc : c < b.cols) (hf : nonRevealedCount b ≤ f) :
    revealFuel f b r c = reveal b r c ∧
      nonRevealedCount b ≤ b.rows * b.cols := by
  refine ⟨?_, nonRevealedCount_le b⟩
  unfold reveal
  have h1 : f = nonRevealedCount b + (f - nonRevealedCount b) := by omega
  have h2 : b.rows * b.cols =
      nonRevealedCount b + (b.rows * b.cols - nonRevealedCount b) := by
    have := nonRevealedCount_le b
    omega
  rw [h1, revealFuel_add_stable _ _ _ _ _ hr hc (le_refl _),
    h2, revealFuel_add_stable _ _ _ _ _ hr hc (le_refl _)]

/-! ### Claims C1, C3, C5, C6, C7, C8, C10 -/

/-- C1 (amended): once `game_over` is true, `handle_click` (for every
coordinate, button and placement outcome) and `reveal` (for every
coordinate) return the board completely unchanged; `toggle_flag` carries
no such guard of its own and is protected only through `handle_click`. -/
theorem game_over_halts (b : Board) (hgo : b.game_over = true) :
    (∀ (row col : Int) (button : Nat) (ms : Finset (Nat × Nat)),
      handle_click b row col button ms = b) ∧
    (∀ r c : Nat, reveal b r c = b) := by
  constructor
  · intro row col button ms
    unfold handle_click
    rw [if_pos (Or.inl hgo)]
  · intro r c
    unfold reveal
    cases hmul : b.rows * b.cols with
    | zero => rfl
    | succ k =>
      rw [revealFuel_succ_def, if_pos (Or.inl hgo)]

/-- C3 (amended): a FLAGGED cell is never revealed by the cascade — when
`reveal` is called on a non-flagged cell, every flagged cell stays
FLAGGED and `flags_placed` is unchanged — and `handle_click` refuses to
reveal a flagged left-click target, leaving it FLAGGED.  (A *direct*
`reveal` call on the flagged cell itself is not guarded: the flag check
lives in `handle_click`.) -/
theorem flagged_cells_not_revealed :
    (∀ (b : Board) (r c : Nat), b.cell_states r c ≠ CellState.FLAGGED →
      (∀ pr pc, b.cell_states pr pc = CellState.FLAGGED →
        (reveal b r c).cell_states pr pc = CellState.FLAGGED) ∧
      (reveal b r c).flags_placed = b.flags_placed) ∧
    (∀ (b : Board) (row col : Int) (ms : Finset (Nat × Nat)),
      0 ≤ row → row < (b.rows : Int) → 0 ≤ col → col < (b.cols : Int) →
      b.cell_states row.toNat col.toNat = CellState.FLAGGED →
      (handle_click b row col 1 ms).cell_states row.toNat col.toNat =
        CellState.FLAGGED) := by
  constructor
  · intro b r c hnf
    exact ⟨fun pr pc hf => revealFuel_flagPres _ b r c hnf pr pc hf,
      (revealFuel_frame _ b r c).2.2.2.2.1⟩
  · intro b row col ms h1 h2 h3 h4 hflag
    by_cases hover : b.game_over = true ∨ b.game_won = true
    · have hdone : handle_click b row col 1 ms = b := by
        unfold handle_click
        rw [if_pos hover]
      rw [hdone]
      exact hflag
    · obtain ⟨bmid, hbmid⟩ : ∃ bmid : Board, bmid =
          (if b.first_click = true then
            { calculate_adjacent_mines (place_mines b row.toNat col.toNat ms) with
              first_click := false } else b) := ⟨_, rfl⟩
      have hbody : handle_click b row col 1 ms =
          (if (if bmid.cell_states row.toNat col.toNat ≠ CellState.FLAGGED then
                reveal bmid row.toNat col.toNat else bmid).game_over = true then
            (if bmid.cell_states row.toNat col.toNat ≠ CellState.FLAGGED then
                reveal bmid row.toNat col.toNat else bmid)
          else check_win (if bmid.cell_states row.toNat col.toNat ≠
                CellState.FLAGGED then
                reveal bmid row.toNat col.toNat else bmid)) := by
        subst hbmid
        unfold handle_click
        rw [if_neg hover, if_neg (not_not_intro ⟨h1, h2, h3, h4⟩)]
        rfl
      have hmidstate : bmid.cell_states row.toNat col.toNat = CellState.FLAGGED := by
        rw [hbmid]
        by_cases hfc : b.first_click = true
        · rw [if_pos hfc]
          show (calculate_adjacent_mines
            (place_mines b row.toNat col.toNat ms)).cell_states _ _ = _
          rw [(calculate_adjacent_mines_frame _).2.2.1]
          exact hflag
        · rw [if_neg hfc]
          exact hflag
      have hB1 : (if bmid.cell_states row.toNat col.toNat ≠ CellState.FLAGGED then
          reveal bmid row.toNat col.toNat else bmid) = bmid :=
        if_neg (not_not_intro hmidstate)
      rw [hbody, hB1]
      by_cases hgo2 : bmid.game_over = true
      · rw [if_pos hgo2]
        exact hmidstate
      · rw [if_neg hgo2]
        exact check_win_flag_keep _ hmidstate

/-- C5: `_check_win` declares a win exactly when the count of revealed
non-mine cells equals `rows*cols` minus the effective mine count; on a
win it also sets `game_over`, flags every still-hidden in-range mine
(incrementing `flags_placed` once per such cell) and changes no REVEALED
cell; otherwise it changes nothing at all. -/
theorem check_win_claim (b : Board) :
    (((revealedNonMineCount b : Int) =
        (b.rows : Int) * (b.cols : Int) - (b.mines : Int)) →
      (check_win b).game_won = true ∧ (check_win b).game_over = true ∧
      (∀ r c, r < b.rows → c < b.cols → b.grid r c = MINE_VALUE →
        b.cell_states r c = CellState.HIDDEN →
        (check_win b).cell_states r c = CellState.FLAGGED) ∧
      (check_win b).flags_placed = b.flags_placed + (hiddenMineCount b : Int) ∧
      (∀ r c, b.cell_states r c = CellState.REVEALED →
        (check_win b).cell_states r c = CellState.REVEALED)) ∧
    (¬((revealedNonMineCount b : Int) =
        (b.rows : Int) * (b.cols : Int) - (b.mines : Int)) →
      check_win b = b) := by
  constructor
  · intro hcond
    have hspec := check_win_win_spec b hcond
    refine ⟨hspec.1, hspec.2.1, ?_, hspec.2.2.2.1, ?_⟩
    · intro r c hr hc hm hh
      rw [hspec.2.2.1 r c, if_pos ⟨hr, hc, hm, hh⟩]
    · intro r c hrev
      rw [hspec.2.2.1 r c, if_neg]
      · exact hrev
      · intro hcc
        rw [hrev] at hcc
        cases hcc.2.2.2
  · exact check_win_no_win b

/-- C6: for any valid outcome of the mine-sampling loop, `_place_mines`
places exactly `min(requested, rows*cols - |safe zone|)` distinct mines,
stores that (possibly reduced) number as the board's effective mine
count, marks each placed mine in the grid, and places no mine whose row
and column are both within one of the first-click cell. -/
theorem place_mines_spec (b : Board) (fr fc : Nat) (ms : Finset (Nat × Nat))
    (hv : ValidPlacement b fr fc ms) :
    (place_mines b fr fc ms).mines_location.card =
      min b.mines (b.rows * b.cols - (safeZone b fr fc).card) ∧
    (place_mines b fr fc ms).mines =
      min b.mines (b.rows * b.cols - (safeZone b fr fc).card) ∧
    (∀ p ∈ (place_mines b fr fc ms).mines_location,
      (place_mines b fr fc ms).grid p.1 p.2 = MINE_VALUE) ∧
    (∀ p ∈ (place_mines b fr fc ms).mines_location,
      ¬(((p.1 : Int) - (fr : Int)).natAbs ≤ 1 ∧
        ((p.2 : Int) - (fc : Int)).natAbs ≤ 1)) := by
  refine ⟨hv.1, rfl, ?_, ?_⟩
  · intro p hp
    show (if (p.1, p.2) ∈ ms then MINE_VALUE else b.grid p.1 p.2) = MINE_VALUE
    have hp' : (p.1, p.2) ∈ ms := hp
    rw [if_pos hp']
  · intro p hp hclose
    have hvp := hv.2 p hp
    exact hvp.2.2 (mem_safeZone.mpr ⟨hvp.1, hvp.2.1, hclose.1, hclose.2⟩)

/-- C7: after `_calculate_adjacent_mines`, every in-range non-mine cell
stores exactly the number of in-range mine cells among its up-to-eight
neighbours, a value between 0 and 8 (out-of-range positions contribute
nothing, and which cells are mines is unchanged by the pass). -/
theorem calculate_adjacent_mines_spec (b : Board) (r c : Nat)
    (hr : r < b.rows) (hc : c < b.cols)
    (hnm : (calculate_adjacent_mines b).grid r c ≠ MINE_VALUE) :
    (calculate_adjacent_mines b).grid r c =
      ((mineNeighborSet (calculate_adjacent_mines b) r c).card : Int) ∧
    (mineNeighborSet (calculate_adjacent_mines b) r c).card ≤ 8 := by
  have hmina : ∀ r' c', (calculate_adjacent_mines b).grid r' c' = MINE_VALUE ↔
      b.grid r' c' = MINE_VALUE := by
    intro r' c'
    rw [calculate_adjacent_mines_grid]
    by_cases hcond : r' < b.rows ∧ c' < b.cols ∧ b.grid r' c' ≠ MINE_VALUE
    · rw [if_pos hcond]
      constructor
      · intro hcc
        have : (0 : Int) ≤ ((adjMineCount b.grid b.rows b.cols r' c' : Nat) : Int) :=
          Int.natCast_nonneg _
        rw [hcc] at this
        norm_num [MINE_VALUE] at this
      · intro hcc
        exact absurd hcc hcond.2.2
    · rw [if_neg hcond]
  have hbnm : b.grid r c ≠ MINE_VALUE := fun hcc => hnm ((hmina r c).mpr hcc)
  have hval : (calculate_adjacent_mines b).grid r c =
      ((adjMineCount b.grid b.rows b.cols r c : Nat) : Int) := by
    rw [calculate_adjacent_mines_grid, if_pos ⟨hr, hc, hbnm⟩]
  have hseteq : mineNeighborSet (calculate_adjacent_mines b) r c =
      mineNeighborSet b r c := by
    unfold mineNeighborSet
    rw [(calculate_adjacent_mines_frame b).1, (calculate_adjacent_mines_frame b).2.1]
    apply Finset.filter_congr
    intro p _
    constructor
    · intro hcc
      exact ⟨hcc.1, hcc.2.1, hcc.2.2.1, (hmina p.1 p.2).mp hcc.2.2.2⟩
    · intro hcc
      exact ⟨hcc.1, hcc.2.1, hcc.2.2.1, (hmina p.1 p.2).mpr hcc.2.2.2⟩
  constructor
  · rw [hval, hseteq, adjMineCount_eq_card]
  · rw [hseteq, ← adjMineCount_eq_card]
    have h8 : neighborOffsets.length = 8 := rfl
    calc adjMineCount b.grid b.rows b.cols r c ≤ neighborOffsets.length :=
          List.countP_le_length _
      _ = 8 := h8

/-- C8 (amended): calling `reveal` on an in-range mine cell that is not
already REVEALED while the game is running reveals that cell, sets
`game_over`, reveals exactly the non-flagged mine cells in addition, and
leaves every other cell (every flagged cell and every non-mine cell other
than the clicked one) and `flags_placed` unchanged. -/
theorem reveal_mine_spec (b : Board) (r c : Nat) (hr : r < b.rows)
    (hc : c < b.cols) (hgo : b.game_over = false)
    (hmine : b.grid r c = MINE_VALUE)
    (hnrev : b.cell_states r c ≠ CellState.REVEALED) :
    (reveal b r c).cell_states r c = CellState.REVEALED ∧
    (reveal b r c).game_over = true ∧
    (∀ pr pc, (reveal b r c).cell_states pr pc =
      if (pr = r ∧ pc = c) ∨ (pr < b.rows ∧ pc < b.cols ∧
          b.grid pr pc = MINE_VALUE ∧ b.cell_states pr pc ≠ CellState.FLAGGED)
      then CellState.REVEALED else b.cell_states pr pc) ∧
    (reveal b r c).flags_placed = b.flags_placed := by
  have hpos : 0 < b.rows * b.cols :=
    Nat.mul_pos (Nat.lt_of_le_of_lt (Nat.zero_le r) hr)
      (Nat.lt_of_le_of_lt (Nat.zero_le c) hc)
  obtain ⟨k, hk⟩ : ∃ k, b.rows * b.cols = k + 1 := ⟨b.rows * b.cols - 1, by omega⟩
  have hrw : reveal b r c = reveal_all_mines
      { b with
        cell_states := setS b.cell_states r c CellState.REVEALED
        game_over := true } := by
    unfold reveal
    rw [hk, revealFuel_succ_def, if_neg (by
      intro hcc
      rcases hcc with hcc | hcc
      · rw [hgo] at hcc
        cases hcc
      · exact hnrev hcc), if_pos hmine]
  have hstates : ∀ pr pc, (reveal b r c).cell_states pr pc =
      if (pr = r ∧ pc = c) ∨ (pr < b.rows ∧ pc < b.cols ∧
          b.grid pr pc = MINE_VALUE ∧ b.cell_states pr pc ≠ CellState.FLAGGED)
      then CellState.REVEALED else b.cell_states pr pc := by
    intro pr pc
    rw [hrw, reveal_all_mines_states]
    dsimp only
    by_cases hpp : pr = r ∧ pc = c
    · have hset : setS b.cell_states r c CellState.REVEALED pr pc =
          CellState.REVEALED := by
        rw [hpp.1, hpp.2, setS_self]
      by_cases hif : pr < b.rows ∧ pc < b.cols ∧ b.grid pr pc = MINE_VALUE ∧
          setS b.cell_states r c CellState.REVEALED pr pc ≠ CellState.FLAGGED
      · rw [if_pos hif, if_pos (Or.inl hpp)]
      · exfalso
        apply hif
        refine ⟨by rw [hpp.1]; exact hr, by rw [hpp.2]; exact hc,
          by rw [hpp.1, hpp.2]; exact hmine, ?_⟩
        rw [hset]
        intro hcc
        cases hcc
    · have hset : setS b.cell_states r c CellState.REVEALED pr pc =
          b.cell_states pr pc := setS_ne _ _ _ _ _ _ hpp
      rw [hset]
      by_cases hif : pr < b.rows ∧ pc < b.cols ∧ b.grid pr pc = MINE_VALUE ∧
          b.cell_states pr pc ≠ CellState.FLAGGED
      · rw [if_pos hif, if_pos (Or.inr hif)]
      · rw [if_neg hif, if_neg (by
          intro hcc
          rcases hcc with hcc | hcc
          · exact hpp hcc
          · exact hif hcc)]
  refine ⟨?_, ?_, hstates, ?_⟩
  · rw [hstates r c, if_pos (Or.inl ⟨rfl, rfl⟩)]
  · rw [hrw, (reveal_all_mines_frame _).2]
  · rw [hrw]
    exact ((reveal_all_mines_frame _).1).2.2.2.2.1

/-- C10: on a cell that is not REVEALED, `toggle_flag` is an involution —
two calls restore the exact previous board — and a single call touches no
cell other than the given one and no field other than `cell_states` and
`flags_placed`. -/
theorem toggle_flag_involutive (b : Board) (r c : Nat) (hr : r < b.rows)
    (hc : c < b.cols) (h : b.cell_states r c ≠ CellState.REVEALED) :
    toggle_flag (toggle_flag b r c) r c = b ∧
    (∀ pr pc, ¬(pr = r ∧ pc = c) →
      (toggle_flag b r c).cell_states pr pc = b.cell_states pr pc) ∧
    (toggle_flag b r c).rows = b.rows ∧ (toggle_flag b r c).cols = b.cols ∧
    (toggle_flag b r c).mines = b.mines ∧ (toggle_flag b r c).grid = b.grid ∧
    (toggle_flag b r c).mines_location = b.mines_location ∧
    (toggle_flag b r c).first_click = b.first_click ∧
    (toggle_flag b r c).game_over = b.game_over ∧
    (toggle_flag b r c).game_won = b.game_won := by
  cases hstate : b.cell_states r c with
  | REVEALED => exact absurd hstate h
  | HIDDEN =>
    have h1 : toggle_flag b r c = { b with
        cell_states := setS b.cell_states r c CellState.FLAGGED
        flags_placed := b.flags_placed + 1 } := by
      unfold toggle_flag
      rw [if_pos hstate]
    refine ⟨?_, ?_, by rw [h1], by rw [h1], by rw [h1], by rw [h1], by rw [h1],
      by rw [h1], by rw [h1], by rw [h1]⟩
    · rw [h1]
      unfold toggle_flag
      have hstate2 : ({ b with
          cell_states := setS b.cell_states r c CellState.FLAGGED
          flags_placed := b.flags_placed + 1 } : Board).cell_states r c =
          CellState.FLAGGED := by
        show setS b.cell_states r c CellState.FLAGGED r c = _
        rw [setS_self]
      rw [if_neg (fun hcc => by rw [hstate2] at hcc; cases hcc), if_pos hstate2]
      refine board_eq_of_fields _ _ rfl rfl rfl rfl ?_ ?_ rfl rfl rfl rfl
      · show setS (setS b.cell_states r c CellState.FLAGGED) r c CellState.HIDDEN =
          b.cell_states
        funext pr pc
        by_cases hpp : pr = r ∧ pc = c
        · rw [hpp.1, hpp.2, setS_self, hstate]
        · rw [setS_ne _ _ _ _ _ _ hpp, setS_ne _ _ _ _ _ _ hpp]
      · show b.flags_placed + 1 - 1 = b.flags_placed
        omega
    · intro pr pc hpp
      rw [h1]
      show setS b.cell_states r c CellState.FLAGGED pr pc = _
      rw [setS_ne _ _ _ _ _ _ hpp]
  | FLAGGED =>
    have h1 : toggle_flag b r c = { b with
        cell_states := setS b.cell_states r c CellState.HIDDEN
        flags_placed := b.flags_placed - 1 } := by
      unfold toggle_flag
      rw [if_neg (by rw [hstate]; intro hcc; cases hcc), if_pos hstate]
    refine ⟨?_, ?_, by rw [h1], by rw [h1], by rw [h1], by rw [h1], by rw [h1],
      by rw [h1], by rw [h1], by rw [h1]⟩
    · rw [h1]
      unfold toggle_flag
      have hstate2 : ({ b with
          cell_states := setS b.cell_states r c CellState.HIDDEN
          flags_placed := b.flags_placed - 1 } : Board).cell_states r c =
          CellState.HIDDEN := by
        show setS b.cell_states r c CellState.HIDDEN r c = _
        rw [setS_self]
      rw [if_pos hstate2]
      refine board_eq_of_fields _ _ rfl rfl rfl rfl ?_ ?_ rfl rfl rfl rfl
      · show setS (setS b.cell_states r c CellState.HIDDEN) r c CellState.FLAGGED =
          b.cell_states
        funext pr pc
        by_cases hpp : pr = r ∧ pc = c
        · rw [hpp.1, hpp.2, setS_self, hstate]
        · rw [setS_ne _ _ _ _ _ _ hpp, setS_ne _ _ _ _ _ _ hpp]
      · show b.flags_placed - 1 + 1 = b.flags_placed
        omega
    · intro pr pc hpp
      rw [h1]
      show setS b.cell_states r c CellState.HIDDEN pr pc = _
      rw [setS_ne _ _ _ _ _ _ hpp]

/-! ### Claim C2: the flags invariant -/

theorem flagCount_init (rows cols mines : Nat) :
    flagCount (Board.init rows cols mines) = 0 := by
  apply List.countP_eq_zero.mpr
  intro p _
  simp [Board.init]

theorem flagInv_toggle (b : Board) (r c : Nat) (hr : r < b.rows) (hc : c < b.cols)
    (hinv : b.flags_placed = (flagCount b : Int)) :
    (toggle_flag b r c).flags_placed = (flagCount (toggle_flag b r c) : Int) := by
  unfold toggle_flag
  by_cases h1 : b.cell_states r c = CellState.HIDDEN
  · rw [if_pos h1]
    have hcnt : flagCount { b with
        cell_states := setS b.cell_states r c CellState.FLAGGED
        flags_placed := b.flags_placed + 1 } = flagCount b + 1 :=
      flagCount_setS_flag b r c hr hc (by rw [h1]; intro hcc; cases hcc)
    rw [hcnt]
    show b.flags_placed + 1 = _
    rw [hinv]
    push_cast
    ring
  · rw [if_neg h1]
    by_cases h2 : b.cell_states r c = CellState.FLAGGED
    · rw [if_pos h2]
      have hcnt : flagCount { b with
          cell_states := setS b.cell_states r c CellState.HIDDEN
          flags_placed := b.flags_placed - 1 } + 1 = flagCount b :=
        flagCount_setS_unflag b r c hr hc h2
      show b.flags_placed - 1 = _
      omega
    · rw [if_neg h2]
      exact hinv

theorem flagInv_reveal (b : Board) (r c : Nat)
    (hnf : b.cell_states r c ≠ CellState.FLAGGED)
    (hinv : b.flags_placed = (flagCount b : Int)) :
    (reveal b r c).flags_placed = (flagCount (reveal b r c) : Int) := by
  have hframe := revealFuel_frame (b.rows * b.cols) b r c
  have hcount : flagCount (reveal b r c) = flagCount b := by
    refine flagCount_congr hframe.1 hframe.2.1 ?_
    intro r' c' _ _
    constructor
    · intro hf
      exact chgRev_flagged_back (revealFuel_chg _ b r c) hf
    · intro hf
      exact revealFuel_flagPres _ b r c hnf r' c' hf
  show (revealFuel (b.rows * b.cols) b r c).flags_placed = _
  rw [hframe.2.2.2.2.1, hcount]
  exact hinv

theorem flagInv_reveal_all_mines (b : Board)
    (hinv : b.flags_placed = (flagCount b : Int)) :
    (reveal_all_mines b).flags_placed = (flagCount (reveal_all_mines b) : Int) := by
  have hframe := reveal_all_mines_frame b
  have hcount : flagCount (reveal_all_mines b) = flagCount b := by
    refine flagCount_congr hframe.1.1 hframe.1.2.1 ?_
    intro r' c' _ _
    rw [reveal_all_mines_states]
    by_cases hcond : r' < b.rows ∧ c' < b.cols ∧ b.grid r' c' = MINE_VALUE ∧
        b.cell_states r' c' ≠ CellState.FLAGGED
    · rw [if_pos hcond]
      constructor
      · intro hcc
        cases hcc
      · intro hcc
        exact absurd hcc hcond.2.2.2
    · rw [if_neg hcond]
  rw [hframe.1.2.2.2.2.1, hcount]
  exact hinv

theorem flagInv_check_win (b : Board)
    (hinv : b.flags_placed = (flagCount b : Int)) :
    (check_win b).flags_placed = (flagCount (check_win b) : Int) := by
  by_cases hcond : (revealedNonMineCount b : Int) =
      (b.rows : Int) * (b.cols : Int) - (b.mines : Int)
  · have hspec := check_win_win_spec b hcond
    have hcount : flagCount (check_win b) = flagCount b + hiddenMineCount b := by
      unfold flagCount
      rw [hspec.2.2.2.2.1, hspec.2.2.2.2.2.1]
      have hsplit := countP_or_split (cellsList b.rows b.cols)
        (fun p => decide (b.cell_states p.1 p.2 = CellState.FLAGGED))
        (fun p => decide (b.grid p.1 p.2 = MINE_VALUE ∧
          b.cell_states p.1 p.2 = CellState.HIDDEN))
        (fun p => decide ((check_win b).cell_states p.1 p.2 = CellState.FLAGGED))
        ?_ ?_
      · rw [hsplit]
        rfl
      · intro x hx
        have hxin := mem_cellsList.mp hx
        simp only [decide_eq_true_eq]
        rw [hspec.2.2.1 x.1 x.2]
        by_cases hc2 : b.grid x.1 x.2 = MINE_VALUE ∧
            b.cell_states x.1 x.2 = CellState.HIDDEN
        · rw [if_pos ⟨hxin.1, hxin.2, hc2.1, hc2.2⟩]
          constructor
          · intro _
            exact Or.inr hc2
          · intro _
            rfl
        · rw [if_neg (fun hcc => hc2 ⟨hcc.2.2.1, hcc.2.2.2⟩)]
          constructor
          · intro hf
            exact Or.inl hf
          · intro hor
            rcases hor with hor | hor
            · exact hor
            · exact absurd hor hc2
      · intro x _
        simp only [decide_eq_true_eq]
        intro hcc
        rw [hcc.1] at hcc
        cases hcc.2.2
    rw [hspec.2.2.2.1, hcount, hinv]
    push_cast
    ring
  · rw [check_win_no_win b hcond]
    exact hinv

theorem flagInv_reset (b : Board) :
    (reset b).flags_placed = (flagCount (reset b) : Int) := by
  show (0 : Int) = _
  rw [show flagCount (reset b) = 0 from flagCount_init GRID_ROWS GRID_COLS NUM_MINES]
  rfl

theorem flagInv_click (b : Board) (row col : Int) (button : Nat)
    (ms : Finset (Nat × Nat)) (hinv : b.flags_placed = (flagCount b : Int)) :
    (handle_click b row col button ms).flags_placed =
      (flagCount (handle_click b row col button ms) : Int) := by
  by_cases hover : b.game_over = true ∨ b.game_won = true
  · have hdone : handle_click b row col button ms = b := by
      unfold handle_click
      rw [if_pos hover]
    rw [hdone]
    exact hinv
  · by_cases hin : 0 ≤ row ∧ row < (b.rows : Int) ∧ 0 ≤ col ∧ col < (b.cols : Int)
    · obtain ⟨b1, hb1⟩ : ∃ b1 : Board, b1 =
          (if button = 1 then
            (if (if b.first_click = true then
                  { calculate_adjacent_mines (place_mines b row.toNat col.toNat ms) with
                    first_click := false } else b).cell_states row.toNat col.toNat ≠
                CellState.FLAGGED then
              reveal (if b.first_click = true then
                  { calculate_adjacent_mines (place_mines b row.toNat col.toNat ms) with
                    first_click := false } else b) row.toNat col.toNat
            else (if b.first_click = true then
                  { calculate_adjacent_mines (place_mines b row.toNat col.toNat ms) with
                    first_click := false } else b))
          else if button = 3 then
            (if b.cell_states row.toNat col.toNat ≠ CellState.REVEALED then
              toggle_flag b row.toNat col.toNat else b)
          else b) := ⟨_, rfl⟩
      have hbody : handle_click b row col button ms =
          if b1.game_over = true then b1 else check_win b1 := by
        subst hb1
        unfold handle_click
        rw [if_neg hover, if_neg (not_not_intro hin)]
      have hinv2 : ∀ b2 : Board, b2 =
          (if b.first_click = true then
            { calculate_adjacent_mines (place_mines b row.toNat col.toNat ms) with
              first_click := false } else b) →
          b2.flags_placed = (flagCount b2 : Int) ∧
          b2.cell_states = b.cell_states := by
        intro b2 hb2
        by_cases hfc : b.first_click = true
        · rw [if_pos hfc] at hb2
          have hcalcframe := calculate_adjacent_mines_frame
            (place_mines b row.toNat col.toNat ms)
          have hstates : b2.cell_states = b.cell_states := by
            rw [hb2]
            show (calculate_adjacent_mines
              (place_mines b row.toNat col.toNat ms)).cell_states = _
            rw [hcalcframe.2.2.1]
            rfl
          have hflags : b2.flags_placed = b.flags_placed := by
            rw [hb2]
            show (calculate_adjacent_mines
              (place_mines b row.toNat col.toNat ms)).flags_placed = _
            rw [hcalcframe.2.2.2.2.1]
            rfl
          have hrows : b2.rows = b.rows := by
            rw [hb2]
            show (calculate_adjacent_mines
              (place_mines b row.toNat col.toNat ms)).rows = _
            rw [hcalcframe.1]
            rfl
          have hcols : b2.cols = b.cols := by
            rw [hb2]
            show (calculate_adjacent_mines
              (place_mines b row.toNat col.toNat ms)).cols = _
            rw [hcalcframe.2.1]
            rfl
          refine ⟨?_, hstates⟩
          rw [hflags, hinv]
          have : flagCount b2 = flagCount b :=
            flagCount_congr hrows hcols (fun r' c' _ _ => by rw [hstates])
          rw [this]
        · rw [if_neg hfc] at hb2
          rw [hb2]
          exact ⟨hinv, rfl⟩
      have hinv1 : b1.flags_placed = (flagCount b1 : Int) := by
        rw [hb1]
        by_cases hbt1 : button = 1
        · rw [if_pos hbt1]
          obtain ⟨hf2, hs2⟩ := hinv2 _ rfl
          by_cases hflag : (if b.first_click = true then
              { calculate_adjacent_mines (place_mines b row.toNat col.toNat ms) with
                first_click := false } else b).cell_states row.toNat col.toNat ≠
              CellState.FLAGGED
          · rw [if_pos hflag]
            exact flagInv_reveal _ _ _ hflag hf2
          · rw [if_neg hflag]
            exact hf2
        · rw [if_neg hbt1]
          by_cases hbt3 : button = 3
          · rw [if_pos hbt3]
            by_cases hrev : b.cell_states row.toNat col.toNat ≠ CellState.REVEALED
            · rw [if_pos hrev]
              refine flagInv_toggle b _ _ ?_ ?_ hinv
              · omega
              · omega
            · rw [if_neg hrev]
              exact hinv
          · rw [if_neg hbt3]
            exact hinv
      rw [hbody]
      by_cases hgo1 : b1.game_over = true
      · rw [if_pos hgo1]
        exact hinv1
      · rw [if_neg hgo1]
        exact flagInv_check_win b1 hinv1
    · have hdone : handle_click b row col button ms = b := by
        unfold handle_click
        rw [if_neg hover, if_pos hin]
      rw [hdone]
      exact hinv

theorem flagInv_step {a b : Board} (h : EngineStep a b)
    (hinv : a.flags_placed = (flagCount a : Int)) :
    b.flags_placed = (flagCount b : Int) := by
  cases h with
  | click row col button ms _ => exact flagInv_click _ row col button ms hinv
  | rev r c hr hc hnf => exact flagInv_reveal a r c hnf hinv
  | toggle r c hr hc => exact flagInv_toggle a r c hr hc hinv
  | checkWin => exact flagInv_check_win a hinv
  | revealAll => exact flagInv_reveal_all_mines a hinv
  | doReset => exact flagInv_reset a

/-- C2 (amended): in every state reachable from a fresh board by engine
operations — with direct `reveal` calls restricted to non-FLAGGED
targets, the discipline `handle_click` itself enforces — `flags_placed`
equals the number of in-range FLAGGED cells. -/
theorem flags_invariant_reachable (rows cols mines : Nat) (b : Board)
    (h : Relation.ReflTransGen EngineStep (Board.init rows cols mines) b) :
    b.flags_placed = (flagCount b : Int) := by
  induction h with
  | refl =>
    show (0 : Int) = _
    rw [flagCount_init]
    rfl
  | tail _ hstep ih => exact flagInv_step hstep ih

/-! ### Counterexamples -/

/-- Counterexample to claim C1 as stated: `toggle_flag` has no
`game_over` guard — on a finished game it still flags a hidden cell and
changes `flags_placed`. -/
theorem toggle_flag_ignores_game_over :
    overBoard.game_over = true ∧ overBoard.flags_placed = 0 ∧
    (toggle_flag overBoard 0 0).flags_placed = 1 ∧
    overBoard.cell_states 0 0 = CellState.HIDDEN ∧
    (toggle_flag overBoard 0 0).cell_states 0 0 = CellState.FLAGGED := by decide

/-- Counterexample to claim C2 as stated: the state obtained from a fresh
1×1 board by the engine operations `toggle_flag` then a direct `reveal`
on the flagged cell has `flags_placed = 1` but no FLAGGED cell. -/
theorem flags_invariant_fails :
    Relation.ReflTransGen ClaimStep (Board.init 1 1 0) c2Board ∧
    c2Board.flags_placed = 1 ∧ flagCount c2Board = 0 := by
  refine ⟨?_, by decide, by decide⟩
  refine Relation.ReflTransGen.head (ClaimStep.toggle _ 0 0 (by decide) (by decide)) ?_
  exact Relation.ReflTransGen.single (ClaimStep.rev _ 0 0 (by decide) (by decide))

/-- Counterexample to claim C3 as stated: a *direct* `reveal` call on a
FLAGGED cell does reveal it (the flag check lives in `handle_click`, not
in `reveal`). -/
theorem direct_reveal_reveals_flagged :
    c3Board.cell_states 0 0 = CellState.FLAGGED ∧
    (reveal c3Board 0 0).cell_states 0 0 = CellState.REVEALED := by decide

/-- Counterexample to claim C4 as stated: on a mine-free 1×3 board the
whole grid is one maximal zero-count region, yet with the middle cell
FLAGGED, revealing `(0,0)` leaves the far cell `(0,2)` HIDDEN (and the
flagged cell FLAGGED), so not every cell of the maximal region is
revealed. -/
theorem cascade_blocked_by_flag :
    c4Board.grid 0 0 = 0 ∧ c4Board.grid 0 1 = 0 ∧ c4Board.grid 0 2 = 0 ∧
    c4Board.game_over = false ∧
    c4Board.cell_states 0 2 = CellState.HIDDEN ∧
    (reveal c4Board 0 0).cell_states 0 2 = CellState.HIDDEN ∧
    (reveal c4Board 0 0).cell_states 0 1 = CellState.FLAGGED := by decide

/-- Counterexample to claim C8 as stated: `reveal` on a mine cell that is
already REVEALED (game not over) is a complete no-op — in particular
`game_over` is not set. -/
theorem reveal_revealed_mine_no_op :
    c8Board.game_over = false ∧ c8Board.grid 0 0 = MINE_VALUE ∧
    reveal c8Board 0 0 = c8Board ∧ (reveal c8Board 0 0).game_over = false :=
  ⟨rfl, rfl, rfl, rfl⟩

/-! ### Witnesses -/

theorem game_over_halts_witness :
    overBoard.game_over = true ∧
    handle_click overBoard 0 0 1 ∅ = overBoard ∧
    reveal overBoard 0 0 = overBoard :=
  ⟨rfl, (game_over_halts overBoard rfl).1 0 0 1 ∅,
    (game_over_halts overBoard rfl).2 0 0⟩

theorem flags_invariant_reachable_witness :
    (toggle_flag (Board.init 2 2 0) 0 0).flags_placed =
      (flagCount (toggle_flag (Board.init 2 2 0) 0 0) : Int) :=
  flags_invariant_reachable 2 2 0 _
    (Relation.ReflTransGen.single (EngineStep.toggle _ 0 0 (by decide) (by decide)))

theorem flagged_cells_not_revealed_witness :
    c4Board.cell_states 0 0 ≠ CellState.FLAGGED ∧
    (reveal c4Board 0 0).cell_states 0 1 = CellState.FLAGGED ∧
    (reveal c4Board 0 0).flags_placed = c4Board.flags_placed ∧
    c4Board.cell_states (0 : Int).toNat (1 : Int).toNat = CellState.FLAGGED ∧
    (handle_click c4Board 0 1 1 ∅).cell_states (0 : Int).toNat (1 : Int).toNat =
      CellState.FLAGGED := by
  refine ⟨by decide, ?_, ?_, by decide, ?_⟩
  · exact (flagged_cells_not_revealed.1 c4Board 0 0 (by decide)).1 0 1 (by decide)
  · exact (flagged_cells_not_revealed.1 c4Board 0 0 (by decide)).2
  · exact flagged_cells_not_revealed.2 c4Board 0 1 ∅ (by decide) (by decide)
      (by decide) (by decide) (by decide)

theorem reveal_cascade_reach_spec_witness :
    (0 < c4Witness.rows ∧ 0 < c4Witness.cols ∧ c4Witness.game_over = false ∧
      MinedConsistent c4Witness ∧ c4Witness.grid 0 0 = 0 ∧
      c4Witness.cell_states 0 0 = CellState.HIDDEN) ∧
    (∀ pr pc, (Reach c4Witness 0 0 pr pc →
        (reveal c4Witness 0 0).cell_states pr pc = CellState.REVEALED) ∧
      (¬ Reach c4Witness 0 0 pr pc →
        (reveal c4Witness 0 0).cell_states pr pc = c4Witness.cell_states pr pc)) :=
  ⟨⟨by decide, by decide, by decide, by unfold MinedConsistent; decide,
      by decide, by decide⟩,
    reveal_cascade_reach_spec c4Witness 0 0 (by decide) (by decide) (by decide)
      (by unfold MinedConsistent; decide) (by decide) (by decide)⟩

theorem check_win_claim_witness :
    ((revealedNonMineCount c5Witness : Int) =
      (c5Witness.rows : Int) * (c5Witness.cols : Int) - (c5Witness.mines : Int)) ∧
    (check_win c5Witness).game_won = true ∧
    (check_win c5Witness).game_over = true := by
  refine ⟨by decide, ?_, ?_⟩
  · exact ((check_win_claim c5Witness).1 (by decide)).1
  · exact ((check_win_claim c5Witness).1 (by decide)).2.1

theorem place_mines_spec_witness :
    ValidPlacement (Board.init 3 3 1) 0 0 {(2, 2)} ∧
    (place_mines (Board.init 3 3 1) 0 0 {(2, 2)}).mines = 1 := by
  refine ⟨by unfold ValidPlacement; decide, ?_⟩
  have h := place_mines_spec (Board.init 3 3 1) 0 0 {(2, 2)}
    (by unfold ValidPlacement; decide)
  rw [h.2.1]
  decide

theorem calculate_adjacent_mines_spec_witness :
    ((calculate_adjacent_mines c8Witness).grid 0 0 ≠ MINE_VALUE) ∧
    (calculate_adjacent_mines c8Witness).grid 0 0 =
      ((mineNeighborSet (calculate_adjacent_mines c8Witness) 0 0).card : Int) ∧
    (mineNeighborSet (calculate_adjacent_mines c8Witness) 0 0).card ≤ 8 := by
  refine ⟨by decide, ?_, ?_⟩
  · exact (calculate_adjacent_mines_spec c8Witness 0 0 (by decide) (by decide)
      (by decide)).1
  · exact (calculate_adjacent_mines_spec c8Witness 0 0 (by decide) (by decide)
      (by decide)).2

theorem reveal_mine_spec_witness :
    (c8Witness.game_over = false ∧ c8Witness.grid 1 0 = MINE_VALUE ∧
      c8Witness.cell_states 1 0 ≠ CellState.REVEALED) ∧
    (reveal c8Witness 1 0).cell_states 1 0 = CellState.REVEALED ∧
    (reveal c8Witness 1 0).game_over = true := by
  refine ⟨⟨by decide, by decide, by decide⟩, ?_, ?_⟩
  · exact (reveal_mine_spec c8Witness 1 0 (by decide) (by decide) (by decide)
      (by decide) (by decide)).1
  · exact (reveal_mine_spec c8Witness 1 0 (by decide) (by decide) (by decide)
      (by decide) (by decide)).2.1

theorem reveal_depth_bounded_witness :
    nonRevealedCount (Board.init 1 2 0) ≤ 2 ∧
    revealFuel 2 (Board.init 1 2 0) 0 0 = reveal (Board.init 1 2 0) 0 0 := by
  refine ⟨by decide, ?_⟩
  exact (reveal_depth_bounded (Board.init 1 2 0) 0 0 2 (by decide) (by decide)
    (by decide)).1

theorem toggle_flag_involutive_witness :
    (Board.init 1 1 0).cell_states 0 0 ≠ CellState.REVEALED ∧
    toggle_flag (toggle_flag (Board.init 1 1 0) 0 0) 0 0 = Board.init 1 1 0 := by
  refine ⟨by decide, ?_⟩
  exact (toggle_flag_involutive (Board.init 1 1 0) 0 0 (by decide) (by decide)
    (by decide)).1
